import Mathlib

/-!
# Verification of the flint arrow marshalling layer

This development shallowly embeds `src/flint/arrow.py`: a bidirectional
marshalling layer between Python values (primitives, sequences, dicts,
dataclass records) and Arrow columnar scalars/arrays.

The embedding has three layers:

* a model of the Python value universe (`PyValue`) and of Arrow's dtype,
  scalar and array containers (`ArrowDType`, `ArrowScalar`, `ArrowArray`);
* a model of the pyarrow engine boundary (`paScalar`, `paArray`, `asPy`,
  `mapScalarIter`, ...), the external collaborator the repository delegates
  to.  The engine is modelled after pyarrow's documented conversion
  behaviour restricted to the call shapes the repository uses: typed
  scalar/array construction from Python values (with integer range checks,
  struct construction from string-keyed dicts — arbitrary Python objects
  such as dataclass instances are *not* convertible, which pyarrow rejects
  with `ArrowInvalid`), `as_py` extraction (returning dicts for struct
  scalars and key/value tuple lists for map scalars), and iteration.
  Primitive payloads (ints, floats, strings, bytes) are treated as exact
  tokens: the engine stores and returns them unchanged;
* the marshaller tree (`Marshaller`) and its four operations `toArrow`,
  `fromArrow`, `toArrowArray`, `fromArrowArray`, plus the derivation
  function `derive`, translated line by line from
  `BasicTypeArrowMarshaller`, `ListArrowMarshaller`, `MapArrowMarshaller`,
  `StructArrowMarshaller` and `derive_arrow_marshaller`.

Failures (Python exceptions and pyarrow conversion errors alike) are
modelled as `Except.error` carrying a message.
-/

/-- Primitive token used to serialise dtypes and Python values so that they
can be compared with a derivable decidable equality (Lean cannot derive
`DecidableEq` for the nested inductives below). -/
inductive Tok where
  | nat (n : Nat)
  | int (i : Int)
  | str (s : String)
  | bool (b : Bool)
deriving DecidableEq, Repr

/-- Arrow data types, mirroring the `pa.DataType` values the repository
builds: the fifteen primitive dtypes of the basic marshaller singletons,
plus `pa.list_`, `pa.map_` and `pa.struct`. -/
inductive ArrowDType where
  | nullT | boolT
  | int8T | int16T | int32T | int64T
  | uint8T | uint16T | uint32T | uint64T
  | float16T | float32T | float64T
  | utf8T | binaryT
  | listT (elem : ArrowDType)
  | mapT (key value : ArrowDType)
  | structT (fields : List (String × ArrowDType))

/-- The Python value universe the marshalling layer touches: `None`, bools,
ints, floats (carried as opaque exact tokens), strings, bytes, lists,
tuples, dicts (association lists in insertion order, as Python dicts
preserve insertion order) and dataclass instances (`recordV cls fields`,
with `fields` in declaration order, i.e. the instance's `__dict__`). -/
inductive PyValue where
  | noneV
  | boolV (b : Bool)
  | intV (n : Int)
  | floatV (tok : Int)
  | strV (s : String)
  | bytesV (bs : List Nat)
  | listV (xs : List PyValue)
  | tupleV (xs : List PyValue)
  | dictV (entries : List (PyValue × PyValue))
  | recordV (cls : String) (fields : List (String × PyValue))

/-- Arrow scalars.  Every scalar records its dtype (pyarrow scalars carry
their `type`): a primitive scalar stores its payload; list, map and struct
scalars store their already-converted children. -/
inductive ArrowScalar where
  | basicS (dtype : ArrowDType) (payload : PyValue)
  | listS (elemDtype : ArrowDType) (items : List ArrowScalar)
  | mapS (keyDtype valueDtype : ArrowDType) (entries : List (ArrowScalar × ArrowScalar))
  | structS (fieldDtypes : List (String × ArrowDType)) (fields : List (String × ArrowScalar))

/-- Arrow arrays: a dtype together with the element scalars (iterating a
pyarrow array yields its element scalars). -/
structure ArrowArray where
  dtype : ArrowDType
  items : List ArrowScalar

/-- The runtime dtype of a scalar (`scalar.type` in pyarrow). -/
def sdtype : ArrowScalar → ArrowDType
  | .basicS dt _ => dt
  | .listS e _ => .listT e
  | .mapS k v _ => .mapT k v
  | .structS fdts _ => .structT fdts

mutual

/-- Injective serialisation of a dtype into tokens (tag, then children;
list lengths prefixed), used to give `ArrowDType` an executable equality. -/
def dtTokens : ArrowDType → List Tok
  | .nullT => [.nat 0]
  | .boolT => [.nat 1]
  | .int8T => [.nat 2]
  | .int16T => [.nat 3]
  | .int32T => [.nat 4]
  | .int64T => [.nat 5]
  | .uint8T => [.nat 6]
  | .uint16T => [.nat 7]
  | .uint32T => [.nat 8]
  | .uint64T => [.nat 9]
  | .float16T => [.nat 10]
  | .float32T => [.nat 11]
  | .float64T => [.nat 12]
  | .utf8T => [.nat 13]
  | .binaryT => [.nat 14]
  | .listT e => .nat 15 :: dtTokens e
  | .mapT k v => .nat 16 :: (dtTokens k ++ dtTokens v)
  | .structT fs => .nat 17 :: .nat fs.length :: dtFieldTokens fs

/-- Serialisation of a struct dtype's field list. -/
def dtFieldTokens : List (String × ArrowDType) → List Tok
  | [] => []
  | (n, t) :: rest => .str n :: (dtTokens t ++ dtFieldTokens rest)

end

/-- Executable dtype equality (`pa.DataType.__eq__`); equal dtypes have
equal token lists, which is all the development relies on. -/
def dtEq (a b : ArrowDType) : Bool := dtTokens a == dtTokens b

theorem dtEq_refl (a : ArrowDType) : dtEq a a = true := by
  simp [dtEq]

theorem dtEq_of_eq {a b : ArrowDType} (h : a = b) : dtEq a b = true := by
  subst h; exact dtEq_refl a

mutual

/-- Injective serialisation of a Python value into tokens, used to give
`PyValue` an executable equality (Python `==` on the values reachable
here). -/
def pyTokens : PyValue → List Tok
  | .noneV => [.nat 0]
  | .boolV b => [.nat 1, .bool b]
  | .intV n => [.nat 2, .int n]
  | .floatV t => [.nat 3, .int t]
  | .strV s => [.nat 4, .str s]
  | .bytesV bs => .nat 5 :: .nat bs.length :: bs.map .nat
  | .listV xs => .nat 6 :: .nat xs.length :: pyListTokens xs
  | .tupleV xs => .nat 7 :: .nat xs.length :: pyListTokens xs
  | .dictV es => .nat 8 :: .nat es.length :: pyPairTokens es
  | .recordV cls fs => .nat 9 :: .str cls :: .nat fs.length :: pyFieldTokens fs

/-- Serialisation of a list of Python values. -/
def pyListTokens : List PyValue → List Tok
  | [] => []
  | x :: xs => pyTokens x ++ pyListTokens xs

/-- Serialisation of dict entries. -/
def pyPairTokens : List (PyValue × PyValue) → List Tok
  | [] => []
  | (k, v) :: rest => pyTokens k ++ pyTokens v ++ pyPairTokens rest

/-- Serialisation of record fields. -/
def pyFieldTokens : List (String × PyValue) → List Tok
  | [] => []
  | (n, v) :: rest => .str n :: (pyTokens v ++ pyFieldTokens rest)

end

/-- Executable Python value equality, via the token serialisation. -/
def pyEq (a b : PyValue) : Bool := pyTokens a == pyTokens b

theorem pyEq_refl (a : PyValue) : pyEq a a = true := by
  simp [pyEq]

/-- Insert a key/value pair into a Python dict (association list): if the
key is already present its value is updated in place, otherwise the pair is
appended — CPython's dict insertion semantics (last write wins, original
key position kept). -/
def dictInsert (es : List (PyValue × PyValue)) (k v : PyValue) :
    List (PyValue × PyValue) :=
  match es with
  | [] => [(k, v)]
  | (k', v') :: rest =>
      if pyEq k' k then (k', v) :: rest
      else (k', v') :: dictInsert rest k v

/-- Build a Python dict from a sequence of key/value pairs in order, as a
dict comprehension does. -/
def pyDictOf (pairs : List (PyValue × PyValue)) : PyValue :=
  .dictV (pairs.foldl (fun es kv => dictInsert es kv.1 kv.2) [])

/-- Effectful map over a list (a Python list comprehension whose body may
raise): elements are processed left to right and the first failure
propagates. -/
def mapMExcept {A B : Type} (f : A → Except String B) : List A → Except String (List B)
  | [] => .ok []
  | x :: xs => do
      let y ← f x
      let ys ← mapMExcept f xs
      .ok (y :: ys)

/-- Payload check for a primitive dtype: does the Python value convert to
this dtype under `pa.scalar`?  Integer dtypes carry pyarrow's range check;
other primitives require the matching Python kind. -/
def primPayloadOk (dt : ArrowDType) (v : PyValue) : Bool :=
  match dt with
  | .nullT => match v with | .noneV => true | _ => false
  | .boolT => match v with | .boolV _ => true | _ => false
  | .int8T => match v with | .intV n => decide (-128 ≤ n ∧ n ≤ 127) | _ => false
  | .int16T => match v with | .intV n => decide (-32768 ≤ n ∧ n ≤ 32767) | _ => false
  | .int32T => match v with | .intV n => decide (-2147483648 ≤ n ∧ n ≤ 2147483647) | _ => false
  | .int64T => match v with
      | .intV n => decide (-9223372036854775808 ≤ n ∧ n ≤ 9223372036854775807)
      | _ => false
  | .uint8T => match v with | .intV n => decide (0 ≤ n ∧ n ≤ 255) | _ => false
  | .uint16T => match v with | .intV n => decide (0 ≤ n ∧ n ≤ 65535) | _ => false
  | .uint32T => match v with | .intV n => decide (0 ≤ n ∧ n ≤ 4294967295) | _ => false
  | .uint64T => match v with | .intV n => decide (0 ≤ n ∧ n ≤ 18446744073709551615) | _ => false
  | .float16T => match v with | .floatV _ => true | _ => false
  | .float32T => match v with | .floatV _ => true | _ => false
  | .float64T => match v with | .floatV _ => true | _ => false
  | .utf8T => match v with | .strV _ => true | _ => false
  | .binaryT => match v with | .bytesV _ => true | _ => false
  | _ => false

/-- All keys of a raw dict are strings naming declared struct fields (the
strictness pyarrow's struct conversion applies to unexpected keys). -/
def dictKeysDeclared (entries : List (PyValue × PyValue)) (names : List String) : Bool :=
  entries.all fun kv =>
    match kv.1 with
    | .strV n => names.contains n
    | _ => false

/-- Look up a struct field by name in a raw string-keyed dict. -/
def dictFieldLookup (n : String) : List (PyValue × PyValue) → Option PyValue
  | [] => none
  | (k, v) :: rest =>
      match k with
      | .strV m => if m = n then some v else dictFieldLookup n rest
      | _ => dictFieldLookup n rest

mutual

/-- Engine model of `pa.scalar(py, type=dt)`: typed conversion of a Python
value to an Arrow scalar.  Primitive dtypes check the payload; `list_`
converts each element at the element dtype; `map_` accepts a dict and
converts keys and values; `struct` accepts a string-keyed dict whose key
set must equal the declared field set and converts each field at its
dtype.  Any other value (notably an arbitrary Python object such as a
dataclass instance, which pyarrow does not recognise) fails. -/
def paScalar (dt : ArrowDType) (v : PyValue) : Except String ArrowScalar :=
  match dt with
  | .listT e =>
      match v with
      | .listV xs => (paPyList e xs).map (fun items => .listS e items)
      | _ => .error "pa.scalar: could not convert value to list type"

  | .mapT kdt vdt =>
      match v with
      | .dictV es => (paEntries kdt vdt es).map (fun ents => .mapS kdt vdt ents)
      | _ => .error "pa.scalar: could not convert value to map type"
  | .structT fts =>
      match v with
      | .dictV es =>
          if dictKeysDeclared es (fts.map Prod.fst) then
            (paFields fts es).map (fun fs => .structS fts fs)
          else .error "pa.scalar: unexpected keys for struct type"
      | _ => .error "pa.scalar: could not convert value to struct type"
  | dt' =>
      if primPayloadOk dt' v then .ok (.basicS dt' v)
      else .error "pa.scalar: could not convert value to primitive type"
termination_by (sizeOf dt, sizeOf v)
decreasing_by all_goals simp_wf <;> simp [Prod.lex_iff] <;> omega

/-- Convert each element of a Python list at the element dtype. -/
def paPyList (e : ArrowDType) : List PyValue → Except String (List ArrowScalar)
  | [] => .ok []
  | x :: xs => do
      let s ← paScalar e x
      let rest ← paPyList e xs
      .ok (s :: rest)
termination_by xs => (sizeOf e, sizeOf xs)
decreasing_by all_goals simp_wf <;> simp [Prod.lex_iff] <;> omega

/-- Convert each dict entry at the key and value dtypes. -/
def paEntries (kdt vdt : ArrowDType) :
    List (PyValue × PyValue) → Except String (List (ArrowScalar × ArrowScalar))
  | [] => .ok []
  | (k, v) :: rest => do
      let ks ← paScalar kdt k
      let vs ← paScalar vdt v
      let tl ← paEntries kdt vdt rest
      .ok ((ks, vs) :: tl)
termination_by es => (sizeOf kdt + sizeOf vdt + 1, sizeOf es)
decreasing_by all_goals simp_wf <;> simp [Prod.lex_iff] <;> omega

/-- Convert each declared struct field, looked up by name in the raw dict;
a missing declared field fails. -/
def paFields (fts : List (String × ArrowDType)) (es : List (PyValue × PyValue)) :
    Except String (List (String × ArrowScalar)) :=
  match fts with
  | [] => .ok []
  | (n, ft) :: rest =>
      match dictFieldLookup n es with
      | none => .error "pa.scalar: missing field for struct type"
      | some fv => do
          let s ← paScalar ft fv
          let tl ← paFields rest es
          .ok ((n, s) :: tl)
termination_by (sizeOf fts + 1, sizeOf es)
decreasing_by all_goals simp_wf <;> simp [Prod.lex_iff] <;> omega

end

mutual

/-- Engine model of `Scalar.as_py()`: native extraction of a Python value
from a scalar.  Primitive scalars return their payload; list scalars a
list; map scalars a list of key/value 2-tuples (pyarrow's `MapScalar.as_py`);
struct scalars a plain dict. -/
def asPy : ArrowScalar → PyValue
  | .basicS _ p => p
  | .listS _ items => .listV (asPyList items)
  | .mapS _ _ entries => .listV (asPyEntries entries)
  | .structS _ fields => .dictV (asPyFields fields)
termination_by s => sizeOf s

/-- `as_py` of each item of a list scalar. -/
def asPyList : List ArrowScalar → List PyValue
  | [] => []
  | s :: rest => asPy s :: asPyList rest
termination_by ss => sizeOf ss

/-- `as_py` of each entry of a map scalar, as a 2-tuple. -/
def asPyEntries : List (ArrowScalar × ArrowScalar) → List PyValue
  | [] => []
  | (k, v) :: rest => .tupleV [asPy k, asPy v] :: asPyEntries rest
termination_by es => sizeOf es

/-- `as_py` of each field of a struct scalar, as dict entries. -/
def asPyFields : List (String × ArrowScalar) → List (PyValue × PyValue)
  | [] => []
  | (n, s) :: rest => (.strV n, asPy s) :: asPyFields rest
termination_by fs => sizeOf fs

end

/-- Check that every scalar in a list has the given dtype (pyarrow's typed
constructors validate the type of scalar inputs). -/
def scalarsHaveDtype (dt : ArrowDType) (ss : List ArrowScalar) : Bool :=
  ss.all fun s => dtEq (sdtype s) dt

/-- Engine model of `pa.scalar(list_of_scalars, type=pa.list_(edt))`, the
call shape `ListArrowMarshaller.to_arrow` uses on its composite path: a
list scalar built from already-converted element scalars. -/
def paScalarOfScalars (edt : ArrowDType) (subs : List ArrowScalar) :
    Except String ArrowScalar :=
  if scalarsHaveDtype edt subs then .ok (.listS edt subs)
  else .error "pa.scalar: scalar element does not match list value type"

/-- Engine model of `pa.array(py_list, type=dt)` on raw Python values: the
bulk constructor converts each element exactly as the scalar constructor
does (pyarrow's array and scalar conversions agree elementwise). -/
def paArray (dt : ArrowDType) (xs : List PyValue) : Except String ArrowArray :=
  (mapMExcept (paScalar dt) xs).map (fun items => ArrowArray.mk dt items)

/-- Engine model of `pa.array(list_of_scalars, type=dt)`, the call shape the
composite marshallers use on their `to_arrow_array` paths: an array built
from already-converted scalars of the requested dtype. -/
def paArrayOfScalars (dt : ArrowDType) (subs : List ArrowScalar) :
    Except String ArrowArray :=
  if scalarsHaveDtype dt subs then .ok (ArrowArray.mk dt subs)
  else .error "pa.array: scalar element does not match array type"

/-- Engine model of `MapScalar.__iter__`: iterating a map scalar yields
`(key.as_py(), value.as_py())` tuples; on any other scalar the iteration
the map decoder performs fails. -/
def mapScalarIter : ArrowScalar → Except String (List (PyValue × PyValue))
  | .mapS _ _ entries => .ok (entries.map fun kv => (asPy kv.1, asPy kv.2))
  | _ => .error "MapScalar iteration on a non-map scalar"

/-- Engine model of `MapScalar.__getitem__` over all indices: the entry
list as `(key_scalar, value_scalar)` pairs. -/
def mapScalarItems : ArrowScalar → Except String (List (ArrowScalar × ArrowScalar))
  | .mapS _ _ entries => .ok entries
  | _ => .error "MapScalar indexing on a non-map scalar"

/-- The converter tree of `ArrowMarshaller` subclasses:
`BasicTypeArrowMarshaller` (identified by its arrow dtype, the only state
its operations use), `ListArrowMarshaller` (one element child),
`MapArrowMarshaller` (key and value children) and `StructArrowMarshaller`
(the dataclass name and one child per field, in declaration order, as
built from `cls.__dataclass_fields__`). -/
inductive Marshaller where
  | basic (dtype : ArrowDType)
  | mlist (elem : Marshaller)
  | mmap (key value : Marshaller)
  | mstruct (cls : String) (fields : List (String × Marshaller))

mutual

/-- The marshaller's declared `arrow_dtype`: basic marshallers carry their
primitive dtype; `ListArrowMarshaller.__init__` builds
`pa.list_(elem.arrow_dtype)`, `MapArrowMarshaller.__init__` builds
`pa.map_(key.arrow_dtype, value.arrow_dtype)` and
`StructArrowMarshaller.__init__` builds `pa.struct` over the per-field
dtypes. -/
def Marshaller.dtype : Marshaller → ArrowDType
  | .basic dt => dt
  | .mlist e => .listT e.dtype
  | .mmap k v => .mapT k.dtype v.dtype
  | .mstruct _ flds => .structT (dtypeFields flds)
termination_by m => sizeOf m

/-- Dtypes of a struct marshaller's fields, in declaration order. -/
def dtypeFields : List (String × Marshaller) → List (String × ArrowDType)
  | [] => []
  | (n, m) :: rest => (n, m.dtype) :: dtypeFields rest
termination_by fs => sizeOf fs

end

/-- `isinstance(m, BasicTypeArrowMarshaller)`. -/
def Marshaller.isBasic : Marshaller → Bool
  | .basic _ => true
  | _ => false

/-- A record's `__dict__`: its fields as a string-keyed Python dict. -/
def recordAsDict (rfs : List (String × PyValue)) : List (PyValue × PyValue) :=
  rfs.map fun nv => (.strV nv.1, nv.2)

/-- `self.fields[f]`: look up the child marshaller for a field name. -/
def fieldsLookup (f : String) : List (String × Marshaller) → Option Marshaller
  | [] => none
  | (n, m) :: rest => if n = f then some m else fieldsLookup f rest

theorem fieldsLookup_sizeOf_le (f : String) (flds : List (String × Marshaller)) :
    sizeOf (fieldsLookup f flds) ≤ sizeOf flds + 1 := by
  induction flds with
  | nil => simp [fieldsLookup]
  | cons p rest ih =>
    obtain ⟨n, m⟩ := p
    simp only [fieldsLookup]
    by_cases hn : n = f
    · simp [hn]
      omega
    · simp [hn]
      omega

theorem fieldsLookup_sizeOf {f : String} :
    ∀ {flds : List (String × Marshaller)} {m : Marshaller},
      fieldsLookup f flds = some m → sizeOf m ≤ sizeOf flds := by
  intro flds
  induction flds with
  | nil => intro m h; simp [fieldsLookup] at h
  | cons p rest ih =>
    intro m h
    obtain ⟨n, m'⟩ := p
    simp only [fieldsLookup] at h
    by_cases hn : n = f
    · simp [hn] at h
      subst h
      simp
      omega
    · simp [hn] at h
      have := ih h
      simp
      omega

mutual

/-- `to_arrow` of each marshaller class.

* `BasicTypeArrowMarshaller.to_arrow`: `pa.scalar(py, type=self.arrow_dtype)`.
* `ListArrowMarshaller.to_arrow`: if the element marshaller is basic,
  `pa.scalar(py, type=self.arrow_dtype)`; otherwise
  `pa.scalar([self.elem.to_arrow(sub) for sub in py], type=self.arrow_dtype)`.
* `MapArrowMarshaller.to_arrow`: always `pa.scalar(py, type=self.arrow_dtype)`
  (no basic/composite branch exists in the source).
* `StructArrowMarshaller.to_arrow`: `pa.scalar(py.__dict__, type=self.arrow_dtype)`. -/
def toArrow : Marshaller → PyValue → Except String ArrowScalar
  | .basic dt, py => paScalar dt py
  | .mlist elem, py =>
      if elem.isBasic then paScalar (.listT elem.dtype) py
      else
        match py with
        | .listV xs => do
            let subs ← toArrowElems elem xs
            paScalarOfScalars elem.dtype subs
        | _ => .error "TypeError: value is not iterable"
  | .mmap k v, py => paScalar (.mapT k.dtype v.dtype) py
  | .mstruct _ flds, py =>
      match py with
      | .recordV _ rfs => paScalar (.structT (dtypeFields flds)) (.dictV (recordAsDict rfs))
      | _ => .error "AttributeError: value has no __dict__"
termination_by m py => (sizeOf m, sizeOf py)
decreasing_by all_goals simp_wf <;> simp [Prod.lex_iff] <;> omega

/-- The element-wise encoding `[self.elem.to_arrow(sub) for sub in py]` of
the composite list path, in iteration order. -/
def toArrowElems : Marshaller → List PyValue → Except String (List ArrowScalar)
  | _, [] => .ok []
  | elem, x :: xs => do
      let s ← toArrow elem x
      let rest ← toArrowElems elem xs
      .ok (s :: rest)
termination_by m xs => (sizeOf m, sizeOf xs)
decreasing_by all_goals simp_wf <;> simp [Prod.lex_iff] <;> omega

end

/-- A string-keyed insert with CPython dict semantics (used for `**kwargs`
dicts): last write wins, original position kept. -/
def strInsert (es : List (String × PyValue)) (k : String) (v : PyValue) :
    List (String × PyValue) :=
  match es with
  | [] => [(k, v)]
  | (k', v') :: rest =>
      if k' = k then (k', v) :: rest
      else (k', v') :: strInsert rest k v

/-- Build a string-keyed dict from pairs in order. -/
def strDictOf (pairs : List (String × PyValue)) : List (String × PyValue) :=
  pairs.foldl (fun es kv => strInsert es kv.1 kv.2) []

/-- Look up a key in a string-keyed dict. -/
def strLookup (k : String) : List (String × PyValue) → Option PyValue
  | [] => none
  | (k', v) :: rest => if k' = k then some v else strLookup k rest

/-- One declared field read from the `**kwargs` dict; a missing field is a
`TypeError`. -/
def mkRecordField (kwargs : List (String × PyValue)) (n : String) :
    Except String (String × PyValue) :=
  match strLookup n (strDictOf kwargs) with
  | some v => .ok (n, v)
  | none => .error "TypeError: missing required keyword argument"

/-- `self.cls(**kwargs)`: the dataclass `__init__` reads one keyword
argument per declared field, in declaration order, and fails (`TypeError`)
if a required field is missing; the resulting instance holds its fields in
declaration order. -/
def mkRecord (cls : String) (declared : List String)
    (kwargs : List (String × PyValue)) : Except String PyValue := do
  let fields ← mapMExcept (mkRecordField kwargs) declared
  .ok (.recordV cls fields)

mutual

/-- `from_arrow` of each marshaller class.

* `BasicTypeArrowMarshaller.from_arrow`: `arrow.as_py()` — no dtype check.
* `ListArrowMarshaller.from_arrow`: `arrow.as_py()` if the element
  marshaller is basic, else `[self.elem.from_arrow(sub) for sub in arrow]`.
* `MapArrowMarshaller.from_arrow`: `{k: v for k, v in arrow}` if both
  children are basic, else
  `{self.key.from_arrow(arrow[i][0]): self.value.from_arrow(arrow[i][1])
  for i in range(len(arrow))}` (keys decoded before values, as in
  dict comprehensions since Python 3.8).
* `StructArrowMarshaller.from_arrow`:
  `self.cls(**{f: self.fields[f].from_arrow(v) for f, v in arrow.items()})`. -/
def fromArrow : Marshaller → ArrowScalar → Except String PyValue
  | .basic _, s => .ok (asPy s)
  | .mlist elem, s =>
      if elem.isBasic then .ok (asPy s)
      else
        match s with
        | .listS _ items => (fromArrowItems elem items).map .listV
        | _ => .error "TypeError: scalar is not a list scalar"
  | .mmap k v, s =>
      if k.isBasic && v.isBasic then (mapScalarIter s).map pyDictOf
      else
        match s with
        | .mapS _ _ entries => (fromArrowEntries k v entries).map pyDictOf
        | _ => .error "MapScalar indexing on a non-map scalar"
  | .mstruct cls flds, s =>
      match s with
      | .structS _ sfs => do
          let kwargs ← fromArrowKwargs flds sfs
          mkRecord cls (flds.map Prod.fst) kwargs
      | _ => .error "AttributeError: scalar has no items()"
termination_by m s => (sizeOf m, sizeOf s)
decreasing_by all_goals simp_wf <;> simp [Prod.lex_iff] <;> omega

/-- The element-wise decoding of the composite list path, in iteration
order. -/
def fromArrowItems : Marshaller → List ArrowScalar → Except String (List PyValue)
  | _, [] => .ok []
  | elem, s :: rest => do
      let v ← fromArrow elem s
      let tl ← fromArrowItems elem rest
      .ok (v :: tl)
termination_by m ss => (sizeOf m, sizeOf ss)
decreasing_by all_goals simp_wf <;> simp [Prod.lex_iff] <;> omega

/-- The per-entry decoding of the map indexed path: for each index, decode
`arrow[i][0]` with the key marshaller, then `arrow[i][1]` with the value
marshaller. -/
def fromArrowEntries : Marshaller → Marshaller →
    List (ArrowScalar × ArrowScalar) → Except String (List (PyValue × PyValue))
  | _, _, [] => .ok []
  | k, v, (ks, vs) :: rest => do
      let kv ← fromArrow k ks
      let vv ← fromArrow v vs
      let tl ← fromArrowEntries k v rest
      .ok ((kv, vv) :: tl)
termination_by k v es => (sizeOf k + sizeOf v + 1, sizeOf es)
decreasing_by all_goals simp_wf <;> simp [Prod.lex_iff] <;> omega

/-- The kwargs comprehension of struct decoding: iterate the scalar's own
fields, look the field name up among the marshaller's children and decode. -/
def fromArrowKwargs : List (String × Marshaller) → List (String × ArrowScalar) →
    Except String (List (String × PyValue))
  | _, [] => .ok []
  | flds, (f, v) :: rest => do
      let u ← fromArrowChild (fieldsLookup f flds) v
      let tl ← fromArrowKwargs flds rest
      .ok ((f, u) :: tl)
termination_by flds sfs => (sizeOf flds + 1, sizeOf sfs)
decreasing_by
  · simp_wf
    simp only [Prod.lex_iff]
    have hb := fieldsLookup_sizeOf_le f flds
    omega
  · simp_wf
    simp [Prod.lex_iff]

/-- `self.fields[f]` followed by the child's `from_arrow`: a missing field
name raises `KeyError` before any decoding happens. -/
def fromArrowChild : Option Marshaller → ArrowScalar → Except String PyValue
  | none, _ => .error "KeyError: scalar field not among struct fields"
  | some child, v => fromArrow child v
termination_by om v => (sizeOf om, sizeOf v)
decreasing_by all_goals simp_wf <;> simp [Prod.lex_iff] <;> omega

end

/-- The native bulk branch of `MapArrowMarshaller.from_arrow` (taken when
both children are basic): `{k: v for k, v in arrow}`. -/
def mapFromArrowNative (s : ArrowScalar) : Except String PyValue :=
  (mapScalarIter s).map pyDictOf

/-- The indexed branch of `MapArrowMarshaller.from_arrow` (taken
otherwise): `{self.key.from_arrow(arrow[i][0]):
self.value.from_arrow(arrow[i][1]) for i in range(len(arrow))}`. -/
def mapFromArrowIndexed (k v : Marshaller) (s : ArrowScalar) :
    Except String PyValue :=
  match s with
  | .mapS _ _ entries => (fromArrowEntries k v entries).map pyDictOf
  | _ => .error "MapScalar indexing on a non-map scalar"

/-- `MapArrowMarshaller.from_arrow` is the dual-path dispatch over the two
named branches. -/
theorem fromArrow_mmap_eq (k v : Marshaller) (s : ArrowScalar) :
    fromArrow (.mmap k v) s =
      if k.isBasic && v.isBasic then mapFromArrowNative s
      else mapFromArrowIndexed k v s := by
  by_cases hb : (k.isBasic && v.isBasic) = true
  · rw [fromArrow.eq_def]
    simp [hb, mapFromArrowNative]
  · rw [fromArrow.eq_def]
    cases s <;> simp [hb, mapFromArrowIndexed]

/-- `to_arrow_array` of each marshaller class.

* Basic: `pa.array(py, type=self.arrow_dtype)`.
* List: `pa.array(py, type=self.arrow_dtype)` when the element marshaller
  is basic, else `pa.array([self.to_arrow(sub) for sub in py], type=...)`.
* Map: `pa.array(py, type=...)` when both children are basic, else
  `pa.array([self.to_arrow(sub) for sub in py], type=...)`.
* Struct: always `pa.array([self.to_arrow(sub) for sub in py], type=...)`. -/
def toArrowArray : Marshaller → List PyValue → Except String ArrowArray
  | .basic dt, xs => paArray dt xs
  | .mlist elem, xs =>
      if elem.isBasic then paArray (.listT elem.dtype) xs
      else do
        let ss ← mapMExcept (toArrow (.mlist elem)) xs
        paArrayOfScalars (.listT elem.dtype) ss
  | .mmap k v, xs =>
      if k.isBasic && v.isBasic then paArray (.mapT k.dtype v.dtype) xs
      else do
        let ss ← mapMExcept (toArrow (.mmap k v)) xs
        paArrayOfScalars (.mapT k.dtype v.dtype) ss
  | .mstruct cls flds, xs => do
      let ss ← mapMExcept (toArrow (.mstruct cls flds)) xs
      paArrayOfScalars (.structT (dtypeFields flds)) ss

/-- `from_arrow_array` of each marshaller class.

* Basic: `arrow.to_pylist()`.
* List: `arrow.to_pylist()` when the element marshaller is basic, else
  `[self.from_arrow(sub) for sub in arrow]`.
* Map and Struct: always `[self.from_arrow(sub) for sub in arrow]`. -/
def fromArrowArray : Marshaller → ArrowArray → Except String (List PyValue)
  | .basic _, a => .ok (a.items.map asPy)
  | .mlist elem, a =>
      if elem.isBasic then .ok (a.items.map asPy)
      else mapMExcept (fromArrow (.mlist elem)) a.items
  | .mmap k v, a => mapMExcept (fromArrow (.mmap k v)) a.items
  | .mstruct cls flds, a => mapMExcept (fromArrow (.mstruct cls flds)) a.items

/-- The basic marshaller singletons of the module. -/
def nullM : Marshaller := .basic .nullT

/-- `boolean` singleton. -/
def boolean : Marshaller := .basic .boolT

/-- `int8` singleton. -/
def int8 : Marshaller := .basic .int8T

/-- `int16` singleton. -/
def int16 : Marshaller := .basic .int16T

/-- `int32` singleton. -/
def int32 : Marshaller := .basic .int32T

/-- `int64` singleton. -/
def int64 : Marshaller := .basic .int64T

/-- `uint8` singleton. -/
def uint8 : Marshaller := .basic .uint8T

/-- `uint16` singleton. -/
def uint16 : Marshaller := .basic .uint16T

/-- `uint32` singleton. -/
def uint32 : Marshaller := .basic .uint32T

/-- `uint64` singleton. -/
def uint64 : Marshaller := .basic .uint64T

/-- `float16` singleton. -/
def float16 : Marshaller := .basic .float16T

/-- `float32` singleton. -/
def float32 : Marshaller := .basic .float32T

/-- `float64` singleton. -/
def float64 : Marshaller := .basic .float64T

/-- `string` singleton. -/
def stringM : Marshaller := .basic .utf8T

/-- `binary` singleton. -/
def binary : Marshaller := .basic .binaryT

/-- Structural type descriptors, the input of `derive_arrow_marshaller`:
the six primitive Python types matched by identity, dataclasses (name plus
per-field optional `arrow_marshaller` metadata override and field type),
generic sequence types (`get_origin` a `Sequence` subclass), generic
mapping types (`get_origin` a `Mapping` subclass), generic types whose
`get_origin` is a typing special form rather than a class —
`typing.Union[...]`, `Optional[...]`, `Literal[...]` — on which the
dispatcher's `issubclass(get_origin(cls), Sequence)` call itself raises
`TypeError: issubclass() arg 1 must be a class` before any dispatch rule
can answer, and the remaining unmatched types (sets, unparameterised
non-dataclass classes, generics whose class origin is neither a `Sequence`
nor a `Mapping`, ...), which fall through every rule to the final
`NotImplementedError`. -/
inductive PyType where
  | noneT | boolT | intT | floatT | strT | bytesT
  | dataclassT (name : String) (fields : List (String × Option Marshaller × PyType))
  | seqT (elem : PyType)
  | mappingT (key value : PyType)
  | specialFormT (name : String)
  | otherT (name : String)

mutual

/-- `derive_arrow_marshaller`: dispatch in source order — the six
primitives, `is_dataclass`, then the `Sequence`-origin guard
`get_origin(cls) is not None and issubclass(get_origin(cls), Sequence)`.
When the origin is a typing special form (`typing.Union`, `Literal`, ...)
that guard does not evaluate to `False`: `issubclass` raises
`TypeError: issubclass() arg 1 must be a class`, an error that names no
shape, and the final `raise NotImplementedError(f"Cannot derive
ArrowMarshaller for {cls}")` is never reached. Only shapes with no origin
or with a class origin that is neither a `Sequence` nor a `Mapping` fall
through to the `NotImplementedError`. -/
def derive_arrow_marshaller : PyType → Except String Marshaller
  | .noneT => .ok nullM
  | .boolT => .ok boolean
  | .intT => .ok int64
  | .floatT => .ok float64
  | .strT => .ok stringM
  | .bytesT => .ok binary
  | .dataclassT name fs => (deriveStructFields fs).map (Marshaller.mstruct name)
  | .seqT t => (derive_arrow_marshaller t).map .mlist
  | .mappingT k v => do
      let km ← derive_arrow_marshaller k
      let vm ← derive_arrow_marshaller v
      .ok (.mmap km vm)
  | .specialFormT _ => .error "TypeError: issubclass() arg 1 must be a class"
  | .otherT name => .error ("Cannot derive ArrowMarshaller for " ++ name)
termination_by t => sizeOf t

/-- `derive_arrow_marshaller_for_field`: the field metadata override wins;
otherwise derive from the field's type. -/
def derive_arrow_marshaller_for_field (ov : Option Marshaller) (t : PyType) :
    Except String Marshaller :=
  match ov with
  | some m => .ok m
  | none => derive_arrow_marshaller t
termination_by sizeOf t + 1

/-- The per-field derivation loop of `StructArrowMarshaller.__init__`. -/
def deriveStructFields :
    List (String × Option Marshaller × PyType) →
      Except String (List (String × Marshaller))
  | [] => .ok []
  | (n, ov, t) :: rest => do
      let m ← derive_arrow_marshaller_for_field ov t
      let tl ← deriveStructFields rest
      .ok ((n, m) :: tl)
termination_by fs => sizeOf fs

end

/-- Success test for a conversion result. -/
def isOkE {α : Type} : Except String α → Bool
  | .ok _ => true
  | .error _ => false

theorem isOkE_ok {α : Type} (x : α) : isOkE (.ok x : Except String α) = true := rfl

theorem isOkE_error {α : Type} (e : String) :
    isOkE (.error e : Except String α) = false := rfl

theorem ok_bind {α β : Type} (x : α) (f : α → Except String β) :
    (Except.ok x : Except String α) >>= f = f x := rfl

theorem error_bind {α β : Type} (e : String) (f : α → Except String β) :
    (Except.error e : Except String α) >>= f = .error e := rfl

theorem map_ok {α β : Type} (f : α → β) (x : α) :
    Except.map f (.ok x : Except String α) = .ok (f x) := rfl

theorem map_error {α β : Type} (f : α → β) (e : String) :
    Except.map f (.error e : Except String α) = .error e := rfl

theorem isOkE_map {α β : Type} (f : α → β) (a : Except String α) :
    isOkE (Except.map f a) = isOkE a := by
  cases a <;> rfl

/-- Every scalar the engine constructs carries the requested dtype. -/
theorem paScalar_sdtype {dt : ArrowDType} {v : PyValue} {s : ArrowScalar}
    (h : paScalar dt v = .ok s) : sdtype s = dt := by
  rw [paScalar.eq_def] at h
  split at h
  · rename_i e
    cases v <;> simp at h
    rename_i xs
    cases hp : paPyList e xs <;> rw [hp] at h <;> simp [map_ok, map_error] at h
    subst h; rfl
  · rename_i kdt vdt
    cases v <;> simp at h
    rename_i es
    cases hp : paEntries kdt vdt es <;> rw [hp] at h <;> simp [map_ok, map_error] at h
    subst h; rfl
  · rename_i fts
    cases v <;> simp at h
    rename_i es
    split at h
    · cases hp : paFields fts es <;> rw [hp] at h <;> simp [map_ok, map_error] at h
      subst h; rfl
    · simp at h
  · split at h <;> simp at h
    subst h; rfl

/-- Scalars built from already-converted sub-scalars carry the requested
list dtype. -/
theorem paScalarOfScalars_sdtype {edt : ArrowDType} {subs : List ArrowScalar}
    {s : ArrowScalar} (h : paScalarOfScalars edt subs = .ok s) :
    sdtype s = .listT edt := by
  unfold paScalarOfScalars at h
  split at h <;> simp at h
  subst h; rfl

/-- Arrays built by the engine carry the requested dtype. -/
theorem paArray_dtype {dt : ArrowDType} {xs : List PyValue} {a : ArrowArray}
    (h : paArray dt xs = .ok a) : a.dtype = dt := by
  unfold paArray at h
  cases hp : mapMExcept (paScalar dt) xs <;> rw [hp] at h <;>
    simp [map_ok, map_error] at h
  subst h; rfl

/-- Arrays built from already-converted scalars carry the requested dtype. -/
theorem paArrayOfScalars_dtype {dt : ArrowDType} {subs : List ArrowScalar}
    {a : ArrowArray} (h : paArrayOfScalars dt subs = .ok a) : a.dtype = dt := by
  unfold paArrayOfScalars at h
  split at h <;> simp at h
  subst h; rfl

/-- Dtype stability of scalar encoding: a successful `to_arrow` returns a
scalar of the marshaller's declared dtype. -/
theorem toArrow_sdtype {m : Marshaller} {v : PyValue} {s : ArrowScalar}
    (h : toArrow m v = .ok s) : sdtype s = m.dtype := by
  rw [toArrow.eq_def] at h
  split at h
  · simp only [Marshaller.dtype]
    exact paScalar_sdtype h
  · rename_i elem
    simp only [Marshaller.dtype]
    split at h
    · exact paScalar_sdtype h
    · split at h
      · rename_i xs
        cases he : toArrowElems elem xs <;> rw [he] at h <;>
          simp [ok_bind, error_bind] at h
        exact paScalarOfScalars_sdtype h
      · simp at h
  · simp only [Marshaller.dtype]
    exact paScalar_sdtype h
  · simp only [Marshaller.dtype]
    split at h
    · exact paScalar_sdtype h
    · simp at h

theorem toArrow_basic (dt : ArrowDType) (py : PyValue) :
    toArrow (.basic dt) py = paScalar dt py := by
  rw [toArrow.eq_def]

theorem toArrow_mmap (k v : Marshaller) (py : PyValue) :
    toArrow (.mmap k v) py = paScalar (.mapT k.dtype v.dtype) py := by
  rw [toArrow.eq_def]

theorem toArrow_mlist_basic {elem : Marshaller} (hb : elem.isBasic = true)
    (py : PyValue) :
    toArrow (.mlist elem) py = paScalar (.listT elem.dtype) py := by
  rw [toArrow.eq_def]
  simp [hb]

theorem toArrow_mlist_composite {elem : Marshaller} (hb : elem.isBasic = false)
    (xs : List PyValue) :
    toArrow (.mlist elem) (.listV xs) =
      (toArrowElems elem xs) >>= paScalarOfScalars elem.dtype := by
  rw [toArrow.eq_def]
  simp [hb]

theorem toArrow_mstruct (cls : String) (flds : List (String × Marshaller))
    (rcls : String) (rfs : List (String × PyValue)) :
    toArrow (.mstruct cls flds) (.recordV rcls rfs) =
      paScalar (.structT (dtypeFields flds)) (.dictV (recordAsDict rfs)) := by
  rw [toArrow.eq_def]

/-- The manual element loop is the effectful map of `to_arrow`. -/
theorem toArrowElems_eq_mapM (elem : Marshaller) (xs : List PyValue) :
    toArrowElems elem xs = mapMExcept (toArrow elem) xs := by
  induction xs with
  | nil => rw [toArrowElems.eq_def]; rfl
  | cons x rest ih =>
    rw [toArrowElems.eq_def]
    simp only [mapMExcept, ih]

/-- Members of a successful effectful map are successful images. -/
theorem mapM_ok_mem {A B : Type} {f : A → Except String B} :
    ∀ {xs : List A} {ys : List B}, mapMExcept f xs = .ok ys →
      ∀ y ∈ ys, ∃ x, f x = .ok y := by
  intro xs
  induction xs with
  | nil =>
    intro ys h y hy
    simp [mapMExcept] at h
    subst h
    simp at hy
  | cons x rest ih =>
    intro ys h y hy
    simp only [mapMExcept] at h
    cases hx : f x <;> rw [hx] at h <;> simp [ok_bind, error_bind] at h
    cases hr : mapMExcept f rest <;> rw [hr] at h <;> simp [ok_bind, error_bind] at h
    subst h
    rcases List.mem_cons.mp hy with hy1 | hy2
    · exact ⟨x, by rw [hx, hy1]⟩
    · exact ih hr y hy2

theorem scalarsHaveDtype_of {dt : ArrowDType} {ss : List ArrowScalar}
    (h : ∀ s ∈ ss, sdtype s = dt) : scalarsHaveDtype dt ss = true := by
  simp only [scalarsHaveDtype, List.all_eq_true]
  intro s hs
  exact dtEq_of_eq (h s hs)

/-- Dtype stability of bulk encoding: a successful `to_arrow_array` returns
an array of the marshaller's declared dtype. -/
theorem toArrowArray_dtype {m : Marshaller} {xs : List PyValue} {a : ArrowArray}
    (h : toArrowArray m xs = .ok a) : a.dtype = m.dtype := by
  cases m
  case basic dt =>
    simp only [toArrowArray, Marshaller.dtype] at h ⊢
    exact paArray_dtype h
  case mlist elem =>
    simp only [toArrowArray, Marshaller.dtype] at h ⊢
    split at h
    · exact paArray_dtype h
    · cases hm : mapMExcept (toArrow (.mlist elem)) xs <;> rw [hm] at h <;>
        simp [ok_bind, error_bind] at h
      exact paArrayOfScalars_dtype h
  case mmap k v =>
    simp only [toArrowArray, Marshaller.dtype] at h ⊢
    split at h
    · exact paArray_dtype h
    · cases hm : mapMExcept (toArrow (.mmap k v)) xs <;> rw [hm] at h <;>
        simp [ok_bind, error_bind] at h
      exact paArrayOfScalars_dtype h
  case mstruct cls flds =>
    simp only [toArrowArray, Marshaller.dtype] at h ⊢
    cases hm : mapMExcept (toArrow (.mstruct cls flds)) xs <;> rw [hm] at h <;>
      simp [ok_bind, error_bind] at h
    exact paArrayOfScalars_dtype h

/-- The composite `to_arrow_array` branch (map `to_arrow`, then pack the
scalars into an array of the declared dtype) never fails the engine's
scalar dtype validation, because `to_arrow` is dtype stable. -/
theorem mapM_toArrow_pack (m : Marshaller) (xs : List PyValue) :
    (mapMExcept (toArrow m) xs >>= paArrayOfScalars m.dtype) =
      (mapMExcept (toArrow m) xs).map (fun ss => ArrowArray.mk m.dtype ss) := by
  cases hm : mapMExcept (toArrow m) xs
  · simp [error_bind, map_error]
  · rename_i ss
    simp only [ok_bind, map_ok]
    unfold paArrayOfScalars
    have hall : scalarsHaveDtype m.dtype ss = true := by
      apply scalarsHaveDtype_of
      intro s hs
      obtain ⟨x, hx⟩ := mapM_ok_mem hm s hs
      exact toArrow_sdtype hx
    simp [hall]

/-- Claim C3 core: bulk encoding equals element-wise scalar encoding packed
into an array of the declared dtype, for every marshaller. -/
theorem toArrowArray_eq_elementwise (m : Marshaller) (xs : List PyValue) :
    toArrowArray m xs =
      (mapMExcept (toArrow m) xs).map (fun ss => ArrowArray.mk m.dtype ss) := by
  cases m
  case basic dt =>
    have hf : toArrow (.basic dt) = paScalar dt := funext fun py => toArrow_basic dt py
    simp only [toArrowArray, paArray, Marshaller.dtype, hf]
  case mlist elem =>
    by_cases hb : elem.isBasic = true
    · have hf : toArrow (.mlist elem) = paScalar (.listT elem.dtype) :=
        funext fun py => toArrow_mlist_basic hb py
      simp only [toArrowArray, paArray, Marshaller.dtype, hb, if_true, hf]
    · simp only [toArrowArray, hb, if_false]
      have hd : (Marshaller.mlist elem).dtype = .listT elem.dtype := by
        simp [Marshaller.dtype]
      rw [← hd]
      exact mapM_toArrow_pack (.mlist elem) xs
  case mmap k v =>
    by_cases hb : (k.isBasic && v.isBasic) = true
    · have hf : toArrow (.mmap k v) = paScalar (.mapT k.dtype v.dtype) :=
        funext fun py => toArrow_mmap k v py
      simp only [toArrowArray, paArray, Marshaller.dtype, hb, if_true, hf]
    · simp only [toArrowArray, hb, if_false]
      have hd : (Marshaller.mmap k v).dtype = .mapT k.dtype v.dtype := by
        simp [Marshaller.dtype]
      rw [← hd]
      exact mapM_toArrow_pack (.mmap k v) xs
  case mstruct cls flds =>
    simp only [toArrowArray]
    have hd : (Marshaller.mstruct cls flds).dtype = .structT (dtypeFields flds) := by
      simp [Marshaller.dtype]
    rw [← hd]
    exact mapM_toArrow_pack (.mstruct cls flds) xs

/-- Primitive (non-nested) dtypes. -/
def isPrimDt : ArrowDType → Bool
  | .listT _ => false
  | .mapT _ _ => false
  | .structT _ => false
  | _ => true

theorem paScalar_prim {dt : ArrowDType} (hdt : isPrimDt dt = true) (v : PyValue) :
    paScalar dt v =
      if primPayloadOk dt v then .ok (.basicS dt v)
      else .error "pa.scalar: could not convert value to primitive type" := by
  cases dt
  case listT e => simp [isPrimDt] at hdt
  case mapT k v' => simp [isPrimDt] at hdt
  case structT fs => simp [isPrimDt] at hdt
  all_goals rw [paScalar.eq_def]

theorem paScalar_listT (e : ArrowDType) (v : PyValue) :
    paScalar (.listT e) v =
      (match v with
      | .listV xs => (paPyList e xs).map (fun items => .listS e items)
      | _ => .error "pa.scalar: could not convert value to list type") := by
  rw [paScalar.eq_def]

theorem paScalar_mapT (kdt vdt : ArrowDType) (v : PyValue) :
    paScalar (.mapT kdt vdt) v =
      (match v with
      | .dictV es => (paEntries kdt vdt es).map (fun ents => .mapS kdt vdt ents)
      | _ => .error "pa.scalar: could not convert value to map type") := by
  rw [paScalar.eq_def]

theorem paScalar_structT (fts : List (String × ArrowDType)) (v : PyValue) :
    paScalar (.structT fts) v =
      (match v with
      | .dictV es =>
          if dictKeysDeclared es (fts.map Prod.fst) then
            (paFields fts es).map (fun fs => .structS fts fs)
          else .error "pa.scalar: unexpected keys for struct type"
      | _ => .error "pa.scalar: could not convert value to struct type") := by
  rw [paScalar.eq_def]

theorem paFields_nil (es : List (PyValue × PyValue)) :
    paFields [] es = .ok [] := by
  rw [paFields.eq_def]

theorem paFields_cons (n : String) (ft : ArrowDType)
    (rest : List (String × ArrowDType)) (es : List (PyValue × PyValue)) :
    paFields ((n, ft) :: rest) es =
      (match dictFieldLookup n es with
      | none => .error "pa.scalar: missing field for struct type"
      | some fv => do
          let s ← paScalar ft fv
          let tl ← paFields rest es
          .ok ((n, s) :: tl)) := by
  rw [paFields.eq_def]

theorem paPyList_nil (e : ArrowDType) : paPyList e [] = .ok [] := by
  rw [paPyList.eq_def]

theorem paPyList_cons (e : ArrowDType) (x : PyValue) (xs : List PyValue) :
    paPyList e (x :: xs) =
      (do
      let s ← paScalar e x
      let rest ← paPyList e xs
      .ok (s :: rest)) := by
  rw [paPyList.eq_def]

theorem paEntries_nil (kdt vdt : ArrowDType) : paEntries kdt vdt [] = .ok [] := by
  rw [paEntries.eq_def]

theorem paEntries_cons (kdt vdt : ArrowDType) (k v : PyValue)
    (rest : List (PyValue × PyValue)) :
    paEntries kdt vdt ((k, v) :: rest) =
      (do
      let ks ← paScalar kdt k
      let vs ← paScalar vdt v
      let tl ← paEntries kdt vdt rest
      .ok ((ks, vs) :: tl)) := by
  rw [paEntries.eq_def]

theorem asPy_basicS (dt : ArrowDType) (p : PyValue) :
    asPy (.basicS dt p) = p := by
  rw [asPy.eq_def]

theorem asPy_listS (e : ArrowDType) (items : List ArrowScalar) :
    asPy (.listS e items) = .listV (asPyList items) := by
  rw [asPy.eq_def]

theorem asPy_mapS (kdt vdt : ArrowDType) (entries : List (ArrowScalar × ArrowScalar)) :
    asPy (.mapS kdt vdt entries) = .listV (asPyEntries entries) := by
  rw [asPy.eq_def]

theorem asPy_structS (fdts : List (String × ArrowDType))
    (fields : List (String × ArrowScalar)) :
    asPy (.structS fdts fields) = .dictV (asPyFields fields) := by
  rw [asPy.eq_def]

theorem asPyList_nil : asPyList [] = [] := by
  rw [asPyList.eq_def]

theorem asPyList_cons (s : ArrowScalar) (rest : List ArrowScalar) :
    asPyList (s :: rest) = asPy s :: asPyList rest := by
  rw [asPyList.eq_def]

theorem asPyEntries_nil : asPyEntries [] = [] := by
  rw [asPyEntries.eq_def]

theorem asPyEntries_cons (k v : ArrowScalar) (rest : List (ArrowScalar × ArrowScalar)) :
    asPyEntries ((k, v) :: rest) = .tupleV [asPy k, asPy v] :: asPyEntries rest := by
  rw [asPyEntries.eq_def]

theorem asPyFields_nil : asPyFields [] = [] := by
  rw [asPyFields.eq_def]

theorem asPyFields_cons (n : String) (s : ArrowScalar)
    (rest : List (String × ArrowScalar)) :
    asPyFields ((n, s) :: rest) = (.strV n, asPy s) :: asPyFields rest := by
  rw [asPyFields.eq_def]

theorem fromArrow_basic (dt : ArrowDType) (s : ArrowScalar) :
    fromArrow (.basic dt) s = .ok (asPy s) := by
  rw [fromArrow.eq_def]

theorem fromArrow_mlist_basic {elem : Marshaller} (hb : elem.isBasic = true)
    (s : ArrowScalar) : fromArrow (.mlist elem) s = .ok (asPy s) := by
  rw [fromArrow.eq_def]
  simp [hb]

theorem fromArrow_mlist_composite {elem : Marshaller} (hb : elem.isBasic = false)
    (e : ArrowDType) (items : List ArrowScalar) :
    fromArrow (.mlist elem) (.listS e items) =
      (fromArrowItems elem items).map .listV := by
  rw [fromArrow.eq_def]
  simp [hb]

theorem fromArrow_mstruct (cls : String) (flds : List (String × Marshaller))
    (fdts : List (String × ArrowDType)) (sfs : List (String × ArrowScalar)) :
    fromArrow (.mstruct cls flds) (.structS fdts sfs) =
      (do
      let kwargs ← fromArrowKwargs flds sfs
      mkRecord cls (flds.map Prod.fst) kwargs) := by
  rw [fromArrow.eq_def]

theorem fromArrowItems_nil (elem : Marshaller) : fromArrowItems elem [] = .ok [] := by
  rw [fromArrowItems.eq_def]

theorem fromArrowItems_cons (elem : Marshaller) (s : ArrowScalar)
    (rest : List ArrowScalar) :
    fromArrowItems elem (s :: rest) =
      (do
      let v ← fromArrow elem s
      let tl ← fromArrowItems elem rest
      .ok (v :: tl)) := by
  rw [fromArrowItems.eq_def]

theorem fromArrowEntries_nil (k v : Marshaller) : fromArrowEntries k v [] = .ok [] := by
  rw [fromArrowEntries.eq_def]

theorem fromArrowEntries_cons (k v : Marshaller) (ks vs : ArrowScalar)
    (rest : List (ArrowScalar × ArrowScalar)) :
    fromArrowEntries k v ((ks, vs) :: rest) =
      (do
      let kv ← fromArrow k ks
      let vv ← fromArrow v vs
      let tl ← fromArrowEntries k v rest
      .ok ((kv, vv) :: tl)) := by
  rw [fromArrowEntries.eq_def]

theorem fromArrowKwargs_nil (flds : List (String × Marshaller)) :
    fromArrowKwargs flds [] = .ok [] := by
  rw [fromArrowKwargs.eq_def]

theorem fromArrowKwargs_cons (flds : List (String × Marshaller)) (f : String)
    (v : ArrowScalar) (rest : List (String × ArrowScalar)) :
    fromArrowKwargs flds ((f, v) :: rest) =
      (do
      let u ← fromArrowChild (fieldsLookup f flds) v
      let tl ← fromArrowKwargs flds rest
      .ok ((f, u) :: tl)) := by
  rw [fromArrowKwargs.eq_def]

theorem fromArrowChild_none (v : ArrowScalar) :
    fromArrowChild none v = .error "KeyError: scalar field not among struct fields" := by
  rw [fromArrowChild.eq_def]

theorem fromArrowChild_some (child : Marshaller) (v : ArrowScalar) :
    fromArrowChild (some child) v = fromArrow child v := by
  rw [fromArrowChild.eq_def]

/-- Engine model of the generic map constructor from already-converted
key/value sub-scalars (the engine interface the specification's recursive
map encoding path would use). -/
def paScalarOfMapEntries (kdt vdt : ArrowDType)
    (ents : List (ArrowScalar × ArrowScalar)) : Except String ArrowScalar :=
  if ents.all (fun kv => dtEq (sdtype kv.1) kdt && dtEq (sdtype kv.2) vdt) then
    .ok (.mapS kdt vdt ents)
  else .error "pa.scalar: scalar entry does not match map value type"

/-- The Map scalar-encoding policy as the specification words it (§4.4):
when both children are basic, delegate the mapping directly to the engine's
native map support; otherwise iterate the entries and invoke the key and
value child converters recursively on each entry, packing the converted
sub-scalars with the engine's generic constructor.  (Written from the
spec for comparison against `toArrow`; the source has no such branch in
`to_arrow`.) -/
def mapToArrowSpecDualPath (k v : Marshaller) (py : PyValue) :
    Except String ArrowScalar :=
  if k.isBasic && v.isBasic then paScalar (.mapT k.dtype v.dtype) py
  else
    match py with
    | .dictV es => do
        let ents ← mapMExcept (fun kv => do
            let ks ← toArrow k kv.1
            let vs ← toArrow v kv.2
            .ok (ks, vs)) es
        paScalarOfMapEntries k.dtype v.dtype ents
    | _ => .error "to_scalar: value is not a mapping"

/-- The `Person` dataclass of the repository's test suite
(`name: str, age: int, gender: bool`), as a shape descriptor. -/
def personT : PyType :=
  .dataclassT "Person"
    [("name", none, .strT), ("age", none, .intT), ("gender", none, .boolT)]

/-- The children `StructArrowMarshaller(Person)` builds. -/
def personFields : List (String × Marshaller) :=
  [("name", stringM), ("age", int64), ("gender", boolean)]

/-- `StructArrowMarshaller(Person)`. -/
def personM : Marshaller := .mstruct "Person" personFields

/-- `Person`'s struct dtype fields. -/
def personFieldDtypes : List (String × ArrowDType) :=
  [("name", .utf8T), ("age", .int64T), ("gender", .boolT)]

/-- `Person(name="Ada", age=36, gender=True)`. -/
def adaRecord : PyValue :=
  .recordV "Person" [("name", .strV "Ada"), ("age", .intV 36), ("gender", .boolV true)]

/-- A `Dog` instance carrying the same attribute dict as `adaRecord`. -/
def dogRecord : PyValue :=
  .recordV "Dog" [("name", .strV "Ada"), ("age", .intV 36), ("gender", .boolV true)]

/-- An `Outer` dataclass with a single dataclass-typed field `p: Person`. -/
def outerT : PyType := .dataclassT "Outer" [("p", none, personT)]

/-- `StructArrowMarshaller(Outer)`. -/
def outerM : Marshaller := .mstruct "Outer" [("p", personM)]

/-- `Outer(p=Person(name="Ada", age=36, gender=True))`. -/
def outerVal : PyValue := .recordV "Outer" [("p", adaRecord)]

/-- The struct scalar `to_arrow` produces for `adaRecord`. -/
def adaStruct : ArrowScalar :=
  .structS personFieldDtypes
    [("name", .basicS .utf8T (.strV "Ada")), ("age", .basicS .int64T (.intV 36)),
      ("gender", .basicS .boolT (.boolV true))]

theorem ada_toArrow_eq : toArrow personM adaRecord = .ok adaStruct := by
  unfold personM adaRecord
  rw [toArrow_mstruct]
  simp only [personFields, adaStruct, personFieldDtypes, dtypeFields, Marshaller.dtype,
    stringM, int64, boolean, recordAsDict, List.map, paScalar_structT]
  simp only [dictKeysDeclared, List.all, List.map, Prod.fst, dictFieldLookup,
    List.contains, List.elem, paFields_cons, paFields_nil]
  simp only [String.reduceEq, reduceIte]
  simp only [paScalar_prim, isPrimDt, primPayloadOk]
  norm_num
  simp [ok_bind, error_bind, map_ok, map_error]

theorem outer_toArrow_eq :
    toArrow outerM outerVal =
      .error "pa.scalar: could not convert value to struct type" := by
  unfold outerM outerVal
  rw [toArrow_mstruct]
  simp only [personM, personFields, adaRecord, dtypeFields, Marshaller.dtype,
    stringM, int64, boolean, recordAsDict, List.map, paScalar_structT]
  simp only [dictKeysDeclared, List.all, List.map, Prod.fst, dictFieldLookup,
    List.contains, List.elem, paFields_cons, paFields_nil]
  simp only [String.reduceEq, reduceIte, paScalar_structT]
  simp [ok_bind, error_bind, map_ok, map_error]

theorem derive_personT_eq : derive_arrow_marshaller personT = .ok personM := by
  simp [personT, personM, personFields, derive_arrow_marshaller,
    derive_arrow_marshaller_for_field, deriveStructFields, stringM, int64, boolean,
    ok_bind, map_ok]

theorem derive_outerT_eq : derive_arrow_marshaller outerT = .ok outerM := by
  simp [personT, personM, personFields, outerT, outerM, derive_arrow_marshaller,
    derive_arrow_marshaller_for_field, deriveStructFields, stringM, int64, boolean,
    ok_bind, map_ok]

theorem mapstruct_toArrow_eq :
    toArrow (.mmap stringM personM) (.dictV [(.strV "a", adaRecord)]) =
      .error "pa.scalar: could not convert value to struct type" := by
  rw [toArrow_mmap]
  simp only [stringM, personM, personFields, Marshaller.dtype, dtypeFields,
    adaRecord, paScalar_mapT, paEntries_cons, paEntries_nil]
  simp only [paScalar_prim, isPrimDt, primPayloadOk, paScalar_structT]
  simp [ok_bind, error_bind, map_ok, map_error]

theorem mapstruct_dual_eq :
    mapToArrowSpecDualPath stringM personM (.dictV [(.strV "a", adaRecord)]) =
      .ok (.mapS .utf8T (.structT personFieldDtypes)
        [(.basicS .utf8T (.strV "a"), adaStruct)]) := by
  unfold mapToArrowSpecDualPath
  simp only [stringM, personM, personFields, Marshaller.isBasic, Bool.false_and,
    Bool.and_false, if_false]
  simp only [mapMExcept]
  rw [toArrow_basic]
  rw [show toArrow (Marshaller.mstruct "Person"
      [("name", Marshaller.basic ArrowDType.utf8T), ("age", int64), ("gender", boolean)])
      adaRecord = .ok adaStruct by
    have h := ada_toArrow_eq
    unfold personM personFields stringM at h
    exact h]
  rw [if_neg Bool.false_ne_true]
  rw [show paScalar .utf8T (.strV "a") = .ok (.basicS .utf8T (.strV "a")) by
    rw [@paScalar_prim .utf8T rfl]
    simp [primPayloadOk]]
  rw [ok_bind, ok_bind, ok_bind, ok_bind]
  rw [show (Marshaller.basic ArrowDType.utf8T).dtype = .utf8T by
    rw [Marshaller.dtype.eq_def]]
  rw [show (Marshaller.mstruct "Person"
      [("name", Marshaller.basic ArrowDType.utf8T), ("age", int64), ("gender", boolean)]).dtype
      = .structT personFieldDtypes by
    rw [Marshaller.dtype.eq_def]
    simp only [dtypeFields, Marshaller.dtype, int64, boolean, personFieldDtypes]]
  rw [ok_bind]
  rw [show paScalarOfMapEntries ArrowDType.utf8T (ArrowDType.structT personFieldDtypes)
      [(ArrowScalar.basicS ArrowDType.utf8T (PyValue.strV "a"), adaStruct)] =
      .ok (.mapS .utf8T (.structT personFieldDtypes)
        [(ArrowScalar.basicS ArrowDType.utf8T (PyValue.strV "a"), adaStruct)]) by
    unfold paScalarOfMapEntries
    simp only [List.all, adaStruct, sdtype, dtEq_refl, Bool.and_self]
    simp]

theorem outerArray_toArrowArray_eq :
    toArrowArray outerM [outerVal] =
      .error "pa.scalar: could not convert value to struct type" := by
  show toArrowArray (.mstruct "Outer" [("p", personM)]) [outerVal] = _
  simp only [toArrowArray, mapMExcept]
  rw [show toArrow (Marshaller.mstruct "Outer" [("p", personM)]) outerVal =
    .error "pa.scalar: could not convert value to struct type" from outer_toArrow_eq]
  simp [error_bind]

theorem int64_toArrow_eq :
    toArrow (.basic .int64T) (.intV 5) = .ok (.basicS .int64T (.intV 5)) := by
  rw [toArrow_basic, @paScalar_prim .int64T rfl]
  simp [primPayloadOk]

theorem int64_toArrowArray_eq :
    toArrowArray (.basic .int64T) [.intV 5] =
      .ok (ArrowArray.mk .int64T [.basicS .int64T (.intV 5)]) := by
  simp only [toArrowArray, paArray, mapMExcept]
  rw [@paScalar_prim .int64T rfl]
  simp [primPayloadOk, ok_bind, map_ok]

/-- Claim C1 (code bug): the derivation engine happily derives a converter
for a dataclass `Outer` with a dataclass-typed field `p: Person`, but
`to_scalar` on the conforming value `Outer(p=Person("Ada", 36, True))`
fails: `StructArrowMarshaller.to_arrow` hands the record's raw `__dict__`
to the engine, and the engine cannot convert the nested `Person` object,
so `from_scalar(to_scalar(v)) == v` is violated for this supported shape. -/
theorem c1_roundtrip_fails_on_nested_dataclass :
    derive_arrow_marshaller outerT = .ok outerM ∧
      toArrow outerM outerVal =
        .error "pa.scalar: could not convert value to struct type" :=
  ⟨derive_outerT_eq, outer_toArrow_eq⟩

/-- Claim C2 (code bug): the array round trip fails on the same shape: for
the one-element sequence `[Outer(p=Person("Ada", 36, True))]`,
`to_array` fails because it maps the broken `to_arrow` over the elements,
so `from_array(to_array(xs)) == xs` is violated. -/
theorem c2_array_roundtrip_fails_on_nested_dataclass :
    derive_arrow_marshaller outerT = .ok outerM ∧
      toArrowArray outerM [outerVal] =
        .error "pa.scalar: could not convert value to struct type" :=
  ⟨derive_outerT_eq, outerArray_toArrowArray_eq⟩

/-- Claim C3: for every converter and every sequence of values, the bulk
path of `to_array` is semantically equivalent to encoding each element
independently with `to_scalar` and packing the resulting scalars into an
array of the declared dtype (so the array decoded element-wise equals the
element-wise scalar encodings). -/
theorem c3_to_array_equals_elementwise_to_scalar (m : Marshaller) (xs : List PyValue) :
    toArrowArray m xs =
      (mapMExcept (toArrow m) xs).map (fun ss => ArrowArray.mk m.dtype ss) :=
  toArrowArray_eq_elementwise m xs

/-- Claim C4 (counterexample): the Map converter's `to_scalar` does not
follow the claimed dual-path policy.  For the map `{"a": Person("Ada", 36,
True)}` with a Basic key converter and a Struct value converter, the code
path (always delegating the raw mapping to the engine) fails, while the
claimed `otherwise` path (iterating entries and invoking the child
converters recursively) succeeds, so the two disagree. -/
theorem c4_counterexample_map_to_scalar_not_dual_path :
    toArrow (.mmap stringM personM) (.dictV [(.strV "a", adaRecord)]) ≠
      mapToArrowSpecDualPath stringM personM (.dictV [(.strV "a", adaRecord)]) := by
  rw [mapstruct_toArrow_eq, mapstruct_dual_eq]
  simp

/-- Claim C4 (amended): `MapArrowMarshaller.to_arrow` always delegates the
mapping directly to the engine's native map conversion at the declared map
dtype, whether or not the key and value children are Basic; the dual-path
policy governs `from_arrow` and `to_arrow_array` but not `to_arrow`. -/
theorem c4_amended_map_to_scalar_always_delegates (k v : Marshaller) (py : PyValue) :
    toArrow (.mmap k v) py = paScalar (.mapT k.dtype v.dtype) py :=
  toArrow_mmap k v py

/-- Claim C6 (counterexample). For the spec's own union example
`typing.Union[int, str]` — a generic type whose `get_origin` is the typing
special form `typing.Union`, not a class — derivation does fail, but the
failure is `TypeError: issubclass() arg 1 must be a class`, raised inside
the `Sequence`-origin guard at the `issubclass` call. That error does not
name the unsupported shape: it is not the `NotImplementedError` message
`"Cannot derive ArrowMarshaller for typing.Union[int, str]"`, which the
dispatcher never reaches for special-form origins. -/
theorem c6_counterexample_union_fails_without_naming_shape :
    derive_arrow_marshaller (.specialFormT "typing.Union[int, str]") =
      .error "TypeError: issubclass() arg 1 must be a class" ∧
    ("TypeError: issubclass() arg 1 must be a class" : String) ≠
      "Cannot derive ArrowMarshaller for " ++ "typing.Union[int, str]" :=
  ⟨by rw [derive_arrow_marshaller.eq_def], by decide⟩

/-- Claim C6 (amended). The derivation engine never silently degrades: it
fails on every unmatched shape, returning no fallback converter. But the
error names the unsupported shape only when the shape has no generic
origin or a class origin that is no `Sequence` and no `Mapping` (the
`NotImplementedError` path); when the origin is a typing special form
(`typing.Union[...]`, `Optional[...]`, `Literal[...]`), the dispatcher
instead crashes inside `issubclass` with
`TypeError: issubclass() arg 1 must be a class`, which names no shape. -/
theorem c6_amended_derivation_always_fails_naming_only_class_shapes :
    (∀ name : String, derive_arrow_marshaller (.otherT name) =
      .error ("Cannot derive ArrowMarshaller for " ++ name)) ∧
    (∀ name : String, derive_arrow_marshaller (.specialFormT name) =
      .error "TypeError: issubclass() arg 1 must be a class") :=
  ⟨fun _ => by rw [derive_arrow_marshaller.eq_def],
    fun _ => by rw [derive_arrow_marshaller.eq_def]⟩

/-- Claim C9: dtype stability — every scalar a converter's `to_scalar`
successfully produces carries the converter's declared dtype, and every
array `to_array` successfully produces carries the declared dtype. -/
theorem c9_dtype_stability (m : Marshaller) :
    (∀ v s, toArrow m v = .ok s → sdtype s = m.dtype) ∧
      (∀ xs a, toArrowArray m xs = .ok a → a.dtype = m.dtype) :=
  ⟨fun _ _ h => toArrow_sdtype h, fun _ _ h => toArrowArray_dtype h⟩

/-- Witness for C9 at the `int64` converter on value `5` and sequence
`[5]`. -/
theorem c9_dtype_stability_witness :
    sdtype (.basicS .int64T (.intV 5)) = (Marshaller.basic .int64T).dtype ∧
      (ArrowArray.mk .int64T [.basicS .int64T (.intV 5)]).dtype =
        (Marshaller.basic .int64T).dtype :=
  ⟨(c9_dtype_stability (.basic .int64T)).1 (.intV 5) _ int64_toArrow_eq,
    (c9_dtype_stability (.basic .int64T)).2 [.intV 5] _ int64_toArrowArray_eq⟩

/-- Basic children decode each entry with the engine's native extraction. -/
theorem fromArrowEntries_basic {a b : ArrowDType}
    (entries : List (ArrowScalar × ArrowScalar)) :
    fromArrowEntries (.basic a) (.basic b) entries =
      .ok (entries.map fun kv => (asPy kv.1, asPy kv.2)) := by
  induction entries with
  | nil => rw [fromArrowEntries_nil]; rfl
  | cons kv rest ih =>
    obtain ⟨ks, vs⟩ := kv
    rw [fromArrowEntries_cons, fromArrow_basic, fromArrow_basic, ok_bind, ok_bind, ih,
      ok_bind]
    rfl

theorem ada_fromArrow_eq : fromArrow personM adaStruct = .ok adaRecord := by
  unfold personM adaStruct
  rw [fromArrow_mstruct]
  rw [fromArrowKwargs_cons]
  rw [show fieldsLookup "name" personFields = some (.basic .utf8T) by
    simp [fieldsLookup, personFields, stringM]]
  rw [fromArrowChild_some, fromArrow_basic, asPy_basicS, ok_bind]
  rw [fromArrowKwargs_cons]
  rw [show fieldsLookup "age" personFields = some (.basic .int64T) by
    simp [fieldsLookup, personFields, int64]]
  rw [fromArrowChild_some, fromArrow_basic, asPy_basicS, ok_bind]
  rw [fromArrowKwargs_cons]
  rw [show fieldsLookup "gender" personFields = some (.basic .boolT) by
    simp [fieldsLookup, personFields, boolean]]
  rw [fromArrowChild_some, fromArrow_basic, asPy_basicS, ok_bind]
  rw [fromArrowKwargs_nil, ok_bind, ok_bind, ok_bind]
  simp only [personFields, List.map, Prod.fst]
  unfold mkRecord
  simp only [mapMExcept, mkRecordField, strDictOf, strInsert, strLookup, List.foldl]
  simp [strInsert, strLookup, String.reduceEq, ok_bind, adaRecord]

/-- A columnar map scalar of dtype `map<string, struct<Person>>` holding
one entry. -/
def mapStructScalar : ArrowScalar :=
  .mapS .utf8T (.structT personFieldDtypes) [(.basicS .utf8T (.strV "a"), adaStruct)]

theorem mapStructScalar_native_eq :
    mapFromArrowNative mapStructScalar =
      .ok (.dictV [(.strV "a", .dictV
        [(.strV "name", .strV "Ada"), (.strV "age", .intV 36),
          (.strV "gender", .boolV true)])]) := by
  unfold mapStructScalar mapFromArrowNative mapScalarIter adaStruct
  simp only [List.map, asPy_basicS, asPy_structS, asPyFields_cons, asPyFields_nil,
    asPy_basicS, map_ok]
  simp [pyDictOf, dictInsert, List.foldl]

theorem mapStructScalar_indexed_eq :
    mapFromArrowIndexed stringM personM mapStructScalar =
      .ok (.dictV [(.strV "a", adaRecord)]) := by
  unfold mapStructScalar mapFromArrowIndexed
  show Except.map pyDictOf (fromArrowEntries stringM personM
      [(.basicS .utf8T (.strV "a"), adaStruct)]) = _
  rw [fromArrowEntries_cons]
  rw [show fromArrow stringM (.basicS .utf8T (.strV "a")) = .ok (.strV "a") by
    unfold stringM
    rw [fromArrow_basic, asPy_basicS]]
  rw [ok_bind, ada_fromArrow_eq, ok_bind, fromArrowEntries_nil, ok_bind, map_ok]
  simp [pyDictOf, dictInsert, List.foldl]

/-- Claim C8 (counterexample): on the map scalar of the converter's dtype
`map<string, struct<Person>>` holding the single entry
`("a", Person("Ada", 36, True))`, native bulk iteration decodes the value
to a plain dict while explicit indexed access with the recursive child
`from_scalar` rebuilds a `Person` record, so the two decoding paths
disagree. -/
theorem c8_counterexample_map_decode_paths_differ :
    mapFromArrowNative mapStructScalar ≠
      mapFromArrowIndexed stringM personM mapStructScalar := by
  rw [mapStructScalar_native_eq, mapStructScalar_indexed_eq]
  simp [adaRecord]

/-- Claim C8 (amended): the two scalar-decoding paths of the Map converter
agree whenever both child converters are Basic — exactly the domain on
which the native bulk path is selected: on every columnar map scalar,
native iteration and explicit indexed access produce the same decoded
mapping with identical key/value pairing.  (They can differ when a child
is a Struct converter, as the counterexample shows.) -/
theorem c8_amended_map_decode_paths_agree_for_basic_children
    (k v : Marshaller) (kdt vdt : ArrowDType)
    (entries : List (ArrowScalar × ArrowScalar))
    (hk : k.isBasic = true) (hv : v.isBasic = true) :
    mapFromArrowIndexed k v (.mapS kdt vdt entries) =
      mapFromArrowNative (.mapS kdt vdt entries) := by
  cases k <;> simp [Marshaller.isBasic] at hk
  cases v <;> simp [Marshaller.isBasic] at hv
  simp only [mapFromArrowIndexed, mapFromArrowNative, mapScalarIter]
  rw [fromArrowEntries_basic]

/-- Witness for the amended C8 at the `string → int64` map converter on a
one-entry map scalar. -/
theorem c8_amended_witness :
    mapFromArrowIndexed (.basic .utf8T) (.basic .int64T)
        (.mapS .utf8T .int64T [(.basicS .utf8T (.strV "k"), .basicS .int64T (.intV 1))]) =
      mapFromArrowNative
        (.mapS .utf8T .int64T [(.basicS .utf8T (.strV "k"), .basicS .int64T (.intV 1))]) :=
  c8_amended_map_decode_paths_agree_for_basic_children
    (.basic .utf8T) (.basic .int64T) .utf8T .int64T
    [(.basicS .utf8T (.strV "k"), .basicS .int64T (.intV 1))] rfl rfl

/-- The basic dtypes reachable from the non-override derivation rules: the
six primitive-type rules return the `null`, `boolean`, `int64`, `float64`,
`string` and `binary` singletons only. -/
def allowedBasicDtype : ArrowDType → Bool
  | .nullT => true
  | .boolT => true
  | .int64T => true
  | .float64T => true
  | .utf8T => true
  | .binaryT => true
  | .int8T => false
  | .int16T => false
  | .int32T => false
  | .uint8T => false
  | .uint16T => false
  | .uint32T => false
  | .uint64T => false
  | .float16T => false
  | .float32T => false
  | .listT _ => false
  | .mapT _ _ => false
  | .structT _ => false

mutual

/-- Every basic marshaller in the tree is one of the six default
singletons (in particular none of the narrower integer or float ones). -/
def onlyDefaultBasics : Marshaller → Bool
  | .basic dt => allowedBasicDtype dt
  | .mlist e => onlyDefaultBasics e
  | .mmap k v => onlyDefaultBasics k && onlyDefaultBasics v
  | .mstruct _ flds => onlyDefaultBasicsFields flds
termination_by m => sizeOf m

/-- Field-wise version of `onlyDefaultBasics`. -/
def onlyDefaultBasicsFields : List (String × Marshaller) → Bool
  | [] => true
  | (_, m) :: rest => onlyDefaultBasics m && onlyDefaultBasicsFields rest
termination_by fs => sizeOf fs

end

mutual

/-- No field anywhere in the shape carries an explicit
`arrow_marshaller` metadata override. -/
def noOverride : PyType → Bool
  | .noneT => true
  | .boolT => true
  | .intT => true
  | .floatT => true
  | .strT => true
  | .bytesT => true
  | .specialFormT _ => true
  | .otherT _ => true
  | .dataclassT _ fs => noOverrideFields fs
  | .seqT t => noOverride t
  | .mappingT k v => noOverride k && noOverride v
termination_by t => sizeOf t

/-- Field-wise version of `noOverride`. -/
def noOverrideFields : List (String × Option Marshaller × PyType) → Bool
  | [] => true
  | (_, ov, t) :: rest => ov.isNone && noOverride t && noOverrideFields rest
termination_by fs => sizeOf fs

end


theorem derive_noneT : derive_arrow_marshaller .noneT = .ok nullM := by
  rw [derive_arrow_marshaller.eq_def]

theorem derive_boolT : derive_arrow_marshaller .boolT = .ok boolean := by
  rw [derive_arrow_marshaller.eq_def]

theorem derive_intT : derive_arrow_marshaller .intT = .ok int64 := by
  rw [derive_arrow_marshaller.eq_def]

theorem derive_floatT : derive_arrow_marshaller .floatT = .ok float64 := by
  rw [derive_arrow_marshaller.eq_def]

theorem derive_strT : derive_arrow_marshaller .strT = .ok stringM := by
  rw [derive_arrow_marshaller.eq_def]

theorem derive_bytesT : derive_arrow_marshaller .bytesT = .ok binary := by
  rw [derive_arrow_marshaller.eq_def]

theorem derive_dataclassT (name : String)
    (fs : List (String × Option Marshaller × PyType)) :
    derive_arrow_marshaller (.dataclassT name fs) =
      (deriveStructFields fs).map (Marshaller.mstruct name) := by
  rw [derive_arrow_marshaller.eq_def]

theorem derive_seqT (t : PyType) :
    derive_arrow_marshaller (.seqT t) = (derive_arrow_marshaller t).map .mlist := by
  rw [derive_arrow_marshaller.eq_def]

theorem derive_mappingT (k v : PyType) :
    derive_arrow_marshaller (.mappingT k v) =
      (do
      let km ← derive_arrow_marshaller k
      let vm ← derive_arrow_marshaller v
      .ok (.mmap km vm)) := by
  rw [derive_arrow_marshaller.eq_def]

theorem derive_otherT (name : String) :
    derive_arrow_marshaller (.otherT name) =
      .error ("Cannot derive ArrowMarshaller for " ++ name) := by
  rw [derive_arrow_marshaller.eq_def]

theorem derive_specialFormT (name : String) :
    derive_arrow_marshaller (.specialFormT name) =
      .error "TypeError: issubclass() arg 1 must be a class" := by
  rw [derive_arrow_marshaller.eq_def]

theorem deriveStructFields_nil : deriveStructFields [] = .ok [] := by
  rw [deriveStructFields.eq_def]

theorem deriveStructFields_cons (n : String) (ov : Option Marshaller) (t : PyType)
    (rest : List (String × Option Marshaller × PyType)) :
    deriveStructFields ((n, ov, t) :: rest) =
      (do
      let m ← derive_arrow_marshaller_for_field ov t
      let tl ← deriveStructFields rest
      .ok ((n, m) :: tl)) := by
  rw [deriveStructFields.eq_def]

theorem derive_for_field_none (t : PyType) :
    derive_arrow_marshaller_for_field none t = derive_arrow_marshaller t := by
  rw [derive_arrow_marshaller_for_field.eq_def]

theorem derive_for_field_some (m : Marshaller) (t : PyType) :
    derive_arrow_marshaller_for_field (some m) t = .ok m := by
  rw [derive_arrow_marshaller_for_field.eq_def]

/-- Override-free derivation only ever produces the six default basic
singletons. -/
theorem derive_only_default_basics :
    ∀ (t : PyType) (m : Marshaller), noOverride t = true →
      derive_arrow_marshaller t = .ok m → onlyDefaultBasics m = true := by
  have key : ∀ (n : Nat),
      (∀ t : PyType, sizeOf t ≤ n → ∀ m, noOverride t = true →
        derive_arrow_marshaller t = .ok m → onlyDefaultBasics m = true) ∧
      (∀ fs : List (String × Option Marshaller × PyType), sizeOf fs ≤ n →
        ∀ ms, noOverrideFields fs = true →
        deriveStructFields fs = .ok ms → onlyDefaultBasicsFields ms = true) := by
    intro n
    induction n using Nat.strong_induction_on with
    | _ n ih =>
      constructor
      · intro t ht m hno hd
        cases t
        case noneT =>
          rw [derive_noneT] at hd
          simp [nullM] at hd
          subst hd
          simp [onlyDefaultBasics, allowedBasicDtype]
        case boolT =>
          rw [derive_boolT] at hd
          simp [boolean] at hd
          subst hd
          simp [onlyDefaultBasics, allowedBasicDtype]
        case intT =>
          rw [derive_intT] at hd
          simp [int64] at hd
          subst hd
          simp [onlyDefaultBasics, allowedBasicDtype]
        case floatT =>
          rw [derive_floatT] at hd
          simp [float64] at hd
          subst hd
          simp [onlyDefaultBasics, allowedBasicDtype]
        case strT =>
          rw [derive_strT] at hd
          simp [stringM] at hd
          subst hd
          simp [onlyDefaultBasics, allowedBasicDtype]
        case bytesT =>
          rw [derive_bytesT] at hd
          simp [binary] at hd
          subst hd
          simp [onlyDefaultBasics, allowedBasicDtype]
        case otherT name =>
          rw [derive_otherT] at hd
          simp at hd
        case specialFormT name =>
          rw [derive_specialFormT] at hd
          simp at hd
        case dataclassT name fs =>
          rw [derive_dataclassT] at hd
          simp only [noOverride] at hno
          cases hds : deriveStructFields fs <;> rw [hds] at hd <;>
            simp [map_ok, map_error] at hd
          subst hd
          simp only [onlyDefaultBasics]
          have hsz : sizeOf fs < n := by
            have : sizeOf fs < sizeOf (PyType.dataclassT name fs) := by
              simp <;> omega
            omega
          exact (ih (sizeOf fs) (by omega)).2 fs (le_refl _) _ hno hds
        case seqT t' =>
          rw [derive_seqT] at hd
          simp only [noOverride] at hno
          cases hdt : derive_arrow_marshaller t' <;> rw [hdt] at hd <;>
            simp [map_ok, map_error] at hd
          subst hd
          simp only [onlyDefaultBasics]
          have hsz : sizeOf t' < n := by
            have : sizeOf t' < sizeOf (PyType.seqT t') := by simp <;> omega
            omega
          exact (ih (sizeOf t') (by omega)).1 t' (le_refl _) _ hno hdt
        case mappingT k v =>
          rw [derive_mappingT] at hd
          simp only [noOverride, Bool.and_eq_true] at hno
          cases hdk : derive_arrow_marshaller k <;> rw [hdk] at hd <;>
            simp [ok_bind, error_bind] at hd
          cases hdv : derive_arrow_marshaller v <;> rw [hdv] at hd <;>
            simp [ok_bind, error_bind] at hd
          subst hd
          simp only [onlyDefaultBasics, Bool.and_eq_true]
          have hszk : sizeOf k < n := by
            have : sizeOf k < sizeOf (PyType.mappingT k v) := by simp <;> omega
            omega
          have hszv : sizeOf v < n := by
            have : sizeOf v < sizeOf (PyType.mappingT k v) := by simp <;> omega
            omega
          exact ⟨(ih (sizeOf k) (by omega)).1 k (le_refl _) _ hno.1 hdk,
            (ih (sizeOf v) (by omega)).1 v (le_refl _) _ hno.2 hdv⟩
      · intro fs hfs ms hno hd
        cases fs with
        | nil =>
          rw [deriveStructFields_nil] at hd
          simp at hd
          subst hd
          simp [onlyDefaultBasicsFields]
        | cons p rest =>
          obtain ⟨fname, ov, ft⟩ := p
          rw [deriveStructFields_cons] at hd
          simp only [noOverrideFields, Bool.and_eq_true] at hno
          obtain ⟨⟨hov, hnt⟩, hnr⟩ := hno
          have hovn : ov = none := by
            cases ov <;> simp [Option.isNone] at hov <;> rfl
          subst hovn
          rw [derive_for_field_none] at hd
          cases hdf : derive_arrow_marshaller ft <;> rw [hdf] at hd <;>
            simp [ok_bind, error_bind] at hd
          cases hdr : deriveStructFields rest <;> rw [hdr] at hd <;>
            simp [ok_bind, error_bind] at hd
          subst hd
          simp only [onlyDefaultBasicsFields, Bool.and_eq_true]
          have hszf : sizeOf ft < n := by
            have : sizeOf ft < sizeOf ((fname, (none : Option Marshaller), ft) :: rest) := by simp <;> omega
            omega
          constructor
          · exact (ih (sizeOf ft) (by omega)).1 ft (le_refl _) _ hnt hdf
          · have hszr : sizeOf rest < n := by
              have : sizeOf rest < sizeOf ((fname, (none : Option Marshaller), ft) :: rest) := by
                simp <;> omega
              omega
            exact (ih (sizeOf rest) (by omega)).2 rest (le_refl _) _ hnr hdr
  intro t m hno hd
  exact (key (sizeOf t)).1 t (le_refl _) m hno hd

/-- Claim C10: without an explicit override, derivation maps the host `int`
shape to the 64-bit integer converter and `float` to the 64-bit float
converter, and no override-free derivation path ever returns a basic
converter outside the six default singletons (in particular never
`int8/16/32`, the unsigned ones, `float16` or `float32`). -/
theorem c10_derivation_defaults_to_64bit_numerics :
    derive_arrow_marshaller .intT = .ok (.basic .int64T) ∧
      derive_arrow_marshaller .floatT = .ok (.basic .float64T) ∧
      ∀ (t : PyType) (m : Marshaller), noOverride t = true →
        derive_arrow_marshaller t = .ok m → onlyDefaultBasics m = true :=
  ⟨derive_intT, derive_floatT, derive_only_default_basics⟩

/-- Witness for C10 on the override-free `Person` shape. -/
theorem c10_derivation_defaults_witness : onlyDefaultBasics personM = true :=
  c10_derivation_defaults_to_64bit_numerics.2.2 personT personM
    (by simp [personT, noOverride, noOverrideFields, Option.isNone])
    derive_personT_eq

/-- A field name among the declared names has a child marshaller. -/
theorem fieldsLookup_isSome_of_mem {f : String} :
    ∀ {flds : List (String × Marshaller)}, f ∈ flds.map Prod.fst →
      ∃ m, fieldsLookup f flds = some m := by
  intro flds
  induction flds with
  | nil => intro h; simp at h
  | cons p rest ih =>
    intro h
    obtain ⟨n, m⟩ := p
    by_cases hn : n = f
    · exact ⟨m, by simp [fieldsLookup, hn]⟩
    · have h' : f ∈ n :: rest.map Prod.fst := by simpa only [List.map_cons] using h
      rcases List.mem_cons.mp h' with h1 | h2
      · exact absurd h1.symm hn
      · obtain ⟨m', hm'⟩ := ih h2
        exact ⟨m', by simp [fieldsLookup, hn, hm']⟩

/-- The struct-decoding kwargs comprehension succeeds when every scalar
field is declared and decodable, preserving the scalar field names. -/
theorem fromArrowKwargs_ok :
    ∀ {sf : List (String × ArrowScalar)} {flds : List (String × Marshaller)},
      (∀ p ∈ sf, ∃ child u, fieldsLookup p.1 flds = some child ∧
        fromArrow child p.2 = .ok u) →
      ∃ kwargs, fromArrowKwargs flds sf = .ok kwargs ∧
        kwargs.map Prod.fst = sf.map Prod.fst ∧
        ∀ q ∈ kwargs, ∃ s child, (q.1, s) ∈ sf ∧
          fieldsLookup q.1 flds = some child ∧ fromArrow child s = .ok q.2 := by
  intro sf
  induction sf with
  | nil =>
    intro flds _
    exact ⟨[], by rw [fromArrowKwargs_nil], rfl, by simp⟩
  | cons p rest ih =>
    intro flds h
    obtain ⟨f, s⟩ := p
    obtain ⟨child, u, hlk, hdec⟩ := h (f, s) (List.mem_cons_self _ _)
    obtain ⟨kwargs, hkw, hkeys, hprop⟩ := ih (fun q hq => h q (List.mem_cons_of_mem _ hq))
    refine ⟨(f, u) :: kwargs, ?_, ?_, ?_⟩
    · rw [fromArrowKwargs_cons, hlk, fromArrowChild_some, hdec, ok_bind, hkw, ok_bind]
    · simp [hkeys]
    · intro q hq
      rcases List.mem_cons.mp hq with hq1 | hq2
      · subst hq1
        exact ⟨s, child, List.mem_cons_self _ _, hlk, hdec⟩
      · obtain ⟨s', child', hs', hlk', hdec'⟩ := hprop q hq2
        exact ⟨s', child', List.mem_cons_of_mem _ hs', hlk', hdec'⟩

/-- Inserting a fresh key appends. -/
theorem strInsert_append {k : String} {v : PyValue} :
    ∀ {es : List (String × PyValue)}, k ∉ es.map Prod.fst →
      strInsert es k v = es ++ [(k, v)] := by
  intro es
  induction es with
  | nil => intro _; rfl
  | cons p rest ih =>
    intro h
    obtain ⟨k', v'⟩ := p
    have h1 : k ≠ k' := fun hh => h (by simp [hh])
    have h2 : k ∉ rest.map Prod.fst := fun hh => h (by simp [hh])
    simp only [strInsert]
    rw [if_neg (fun hh => h1 hh.symm), ih h2]
    simp

/-- Building a dict from pairs with pairwise-distinct keys keeps them in
order. -/
theorem strDictOf_nodup :
    ∀ {kwargs acc : List (String × PyValue)},
      ((acc ++ kwargs).map Prod.fst).Nodup →
      List.foldl (fun es kv => strInsert es kv.1 kv.2) acc kwargs = acc ++ kwargs := by
  intro kwargs
  induction kwargs with
  | nil => intro acc _; simp [List.foldl]
  | cons p rest ih =>
    intro acc hnd
    obtain ⟨k, v⟩ := p
    simp only [List.foldl]
    have hdisj : (acc.map Prod.fst).Disjoint ((k, v) :: rest |>.map Prod.fst) :=
      List.disjoint_of_nodup_append (by simpa using hnd)
    have hk : k ∉ acc.map Prod.fst := fun hmem => hdisj hmem (by simp)
    rw [strInsert_append hk]
    have hnd' : ((acc ++ [(k, v)] ++ rest).map Prod.fst).Nodup := by
      simpa [List.append_assoc] using hnd
    rw [ih hnd']
    simp

/-- Lookup in a dict with distinct keys finds the member pair. -/
theorem strLookup_mem :
    ∀ {kwargs : List (String × PyValue)} {n : String} {u : PyValue},
      (kwargs.map Prod.fst).Nodup → (n, u) ∈ kwargs →
      strLookup n kwargs = some u := by
  intro kwargs
  induction kwargs with
  | nil => intro n u _ h; simp at h
  | cons p rest ih =>
    intro n u hnd hmem
    obtain ⟨k, v⟩ := p
    have hnd' := List.nodup_cons.mp (by simpa only [List.map_cons] using hnd)
    rcases List.mem_cons.mp hmem with h1 | h2
    · cases h1
      simp [strLookup]
    · have hn_mem : n ∈ rest.map Prod.fst := List.mem_map.mpr ⟨(n, u), h2, rfl⟩
      have hne : ¬ (k = n) := fun hh => hnd'.1 (hh ▸ hn_mem)
      simp only [strLookup]
      rw [if_neg hne]
      exact ih hnd'.2 h2

/-- The dataclass constructor succeeds when kwargs cover the declared
fields, producing fields in declaration order drawn from kwargs. -/
theorem mkRecord_ok :
    ∀ {declared : List String} {cls : String} {kwargs : List (String × PyValue)},
      (kwargs.map Prod.fst).Nodup →
      (∀ n ∈ declared, n ∈ kwargs.map Prod.fst) →
      ∃ out, mkRecord cls declared kwargs = .ok (.recordV cls out) ∧
        out.map Prod.fst = declared ∧ ∀ q ∈ out, q ∈ kwargs := by
  intro declared
  induction declared with
  | nil =>
    intro cls kwargs _ _
    exact ⟨[], by unfold mkRecord; simp [mapMExcept, ok_bind], rfl, by simp⟩
  | cons n rest ih =>
    intro cls kwargs hnd hmem
    have hn : n ∈ kwargs.map Prod.fst := hmem n (List.mem_cons_self _ _)
    obtain ⟨q0, hq0, hq01⟩ := List.mem_map.mp hn
    have hu : (n, q0.2) ∈ kwargs := by
      rw [show (n, q0.2) = q0 by rw [← hq01]]
      exact hq0
    have hlk : strLookup n (strDictOf kwargs) = some q0.2 := by
      unfold strDictOf
      rw [strDictOf_nodup (by simpa using hnd)]
      exact strLookup_mem hnd hu
    obtain ⟨out, hout, hkeys, hprop⟩ :=
      @ih cls kwargs hnd (fun x hx => hmem x (List.mem_cons_of_mem _ hx))
    have hrest : mapMExcept (mkRecordField kwargs) rest = .ok out := by
      unfold mkRecord at hout
      cases hc : mapMExcept (mkRecordField kwargs) rest <;> rw [hc] at hout <;>
        simp [ok_bind, error_bind] at hout
      rw [hout]
    refine ⟨(n, q0.2) :: out, ?_, by simpa using hkeys, ?_⟩
    · unfold mkRecord
      simp only [mapMExcept, mkRecordField, hlk, hrest, ok_bind]
    · intro q hq
      rcases List.mem_cons.mp hq with h1 | h2
      · subst h1; exact hu
      · exact hprop q h2

/-- Claim C7: struct decoding is field-order independent.  For any physical
ordering of the columnar struct value's fields whose name set matches the
converter's declared field set (and decodes succeed per child), `from_scalar`
succeeds, the resulting record lists its fields in declaration order, and
each field value is the matching child converter's `from_scalar` of that
field's columnar value. -/
theorem c7_struct_decode_order_independent
    (cls : String) (flds : List (String × Marshaller))
    (fdts : List (String × ArrowDType)) (sf : List (String × ArrowScalar))
    (hnd : (flds.map Prod.fst).Nodup)
    (hperm : (sf.map Prod.fst).Perm (flds.map Prod.fst))
    (hdec : ∀ p ∈ sf, ∀ child, fieldsLookup p.1 flds = some child →
      ∃ u, fromArrow child p.2 = .ok u) :
    ∃ out, fromArrow (.mstruct cls flds) (.structS fdts sf) = .ok (.recordV cls out) ∧
      out.map Prod.fst = flds.map Prod.fst ∧
      ∀ q ∈ out, ∃ s child, (q.1, s) ∈ sf ∧ fieldsLookup q.1 flds = some child ∧
        fromArrow child s = .ok q.2 := by
  have hkwhyp : ∀ p ∈ sf, ∃ child u, fieldsLookup p.1 flds = some child ∧
      fromArrow child p.2 = .ok u := by
    intro p hp
    have hmem : p.1 ∈ flds.map Prod.fst :=
      hperm.mem_iff.mp (List.mem_map.mpr ⟨p, hp, rfl⟩)
    obtain ⟨child, hchild⟩ := fieldsLookup_isSome_of_mem hmem
    obtain ⟨u, hu⟩ := hdec p hp child hchild
    exact ⟨child, u, hchild, hu⟩
  obtain ⟨kwargs, hkw, hkeys, hprop⟩ := fromArrowKwargs_ok hkwhyp
  have hknd : (kwargs.map Prod.fst).Nodup := by
    rw [hkeys]
    exact hperm.nodup_iff.mpr hnd
  have hmemk : ∀ n ∈ flds.map Prod.fst, n ∈ kwargs.map Prod.fst := by
    intro n hn
    rw [hkeys]
    exact hperm.mem_iff.mpr hn
  obtain ⟨out, hmk, hok, hoprop⟩ := mkRecord_ok hknd hmemk
  refine ⟨out, ?_, hok, ?_⟩
  · rw [fromArrow_mstruct, hkw, ok_bind, hmk]
  · intro q hq
    exact hprop q (hoprop q hq)

/-- Witness for C7: the `Person` converter decodes a struct scalar whose
fields arrive in the order `age, gender, name`. -/
theorem c7_struct_decode_order_independent_witness :
    ∃ out, fromArrow (.mstruct "Person" personFields)
        (.structS [("age", .int64T), ("gender", .boolT), ("name", .utf8T)]
          [("age", .basicS .int64T (.intV 36)), ("gender", .basicS .boolT (.boolV true)),
            ("name", .basicS .utf8T (.strV "Ada"))]) =
        .ok (.recordV "Person" out) ∧
      out.map Prod.fst = personFields.map Prod.fst ∧
      ∀ q ∈ out, ∃ s child,
        (q.1, s) ∈ ([("age", .basicS .int64T (.intV 36)), ("gender", .basicS .boolT (.boolV true)),
            ("name", .basicS .utf8T (.strV "Ada"))] : List (String × ArrowScalar)) ∧
        fieldsLookup q.1 personFields = some child ∧ fromArrow child s = .ok q.2 :=
  c7_struct_decode_order_independent "Person" personFields
    [("age", .int64T), ("gender", .boolT), ("name", .utf8T)]
    [("age", .basicS .int64T (.intV 36)), ("gender", .basicS .boolT (.boolV true)),
      ("name", .basicS .utf8T (.strV "Ada"))]
    (by decide)
    (by decide)
    (by
      intro p hp child hch
      exact ⟨asPy p.2, by
        rcases List.mem_cons.mp hp with h1 | hp2
        · subst h1
          simp [personFields, fieldsLookup, int64] at hch
          subst hch
          exact fromArrow_basic _ _
        · rcases List.mem_cons.mp hp2 with h1 | hp3
          · subst h1
            simp [personFields, fieldsLookup, boolean] at hch
            subst hch
            exact fromArrow_basic _ _
          · rcases List.mem_cons.mp hp3 with h1 | hp4
            · subst h1
              simp [personFields, fieldsLookup, stringM] at hch
              subst hch
              exact fromArrow_basic _ _
            · simp at hp4⟩)


theorem dictFieldLookup_sizeOf {n : String} :
    ∀ {es : List (PyValue × PyValue)} {fv : PyValue},
      dictFieldLookup n es = some fv → sizeOf fv < sizeOf es := by
  intro es
  induction es with
  | nil => intro fv h; simp [dictFieldLookup] at h
  | cons p rest ih =>
    intro fv h
    obtain ⟨k, v⟩ := p
    simp only [dictFieldLookup] at h
    cases k <;>
      try (have h' : dictFieldLookup n rest = some fv := h
           have := ih h'
           simp <;> omega)
    rename_i ks
    have h' : (if ks = n then some v else dictFieldLookup n rest) = some fv := h
    by_cases hk : ks = n
    · rw [if_pos hk] at h'
      injection h' with h'
      subst h'
      simp
      omega
    · rw [if_neg hk] at h'
      have := ih h'
      simp
      omega

mutual

def dtOk : ArrowDType → PyValue → Bool
  | .listT e, v =>
      (match v with
      | .listV xs => dtOkList e xs
      | _ => false)
  | .mapT kdt vdt, v =>
      (match v with
      | .dictV es => dtOkEntries kdt vdt es
      | _ => false)
  | .structT fts, v =>
      (match v with
      | .dictV es => dictKeysDeclared es (fts.map Prod.fst) && dtOkFields fts es
      | _ => false)
  | dt', v => primPayloadOk dt' v
termination_by dt v => (sizeOf dt, sizeOf v)
decreasing_by all_goals simp_wf <;> simp [Prod.lex_iff] <;> omega

def dtOkList (e : ArrowDType) : List PyValue → Bool
  | [] => true
  | x :: xs => dtOk e x && dtOkList e xs
termination_by xs => (sizeOf e, sizeOf xs)
decreasing_by all_goals simp_wf <;> simp [Prod.lex_iff] <;> omega

def dtOkEntries (kdt vdt : ArrowDType) : List (PyValue × PyValue) → Bool
  | [] => true
  | (k, v) :: rest => dtOk kdt k && dtOk vdt v && dtOkEntries kdt vdt rest
termination_by es => (sizeOf kdt + sizeOf vdt + 1, sizeOf es)
decreasing_by all_goals simp_wf <;> simp [Prod.lex_iff] <;> omega

def dtOkFields : List (String × ArrowDType) → List (PyValue × PyValue) → Bool
  | [], _ => true
  | (n, ft) :: rest, es =>
      (match dictFieldLookup n es with
      | none => false
      | some fv => dtOk ft fv && dtOkFields rest es)
termination_by fts es => (sizeOf fts + 1, sizeOf es)
decreasing_by all_goals simp_wf <;> simp [Prod.lex_iff] <;> omega

end

theorem dtOk_prim {dt : ArrowDType} (hdt : isPrimDt dt = true) (v : PyValue) :
    dtOk dt v = primPayloadOk dt v := by
  cases dt
  case listT e => simp [isPrimDt] at hdt
  case mapT k v' => simp [isPrimDt] at hdt
  case structT fs => simp [isPrimDt] at hdt
  all_goals rw [dtOk.eq_def]

theorem dtOk_listT (e : ArrowDType) (v : PyValue) :
    dtOk (.listT e) v =
      (match v with
      | .listV xs => dtOkList e xs
      | _ => false) := by
  rw [dtOk.eq_def]

theorem dtOk_mapT (kdt vdt : ArrowDType) (v : PyValue) :
    dtOk (.mapT kdt vdt) v =
      (match v with
      | .dictV es => dtOkEntries kdt vdt es
      | _ => false) := by
  rw [dtOk.eq_def]

theorem dtOk_structT (fts : List (String × ArrowDType)) (v : PyValue) :
    dtOk (.structT fts) v =
      (match v with
      | .dictV es => dictKeysDeclared es (fts.map Prod.fst) && dtOkFields fts es
      | _ => false) := by
  rw [dtOk.eq_def]

theorem dtOkList_nil (e : ArrowDType) : dtOkList e [] = true := by
  rw [dtOkList.eq_def]

theorem dtOkList_cons (e : ArrowDType) (x : PyValue) (xs : List PyValue) :
    dtOkList e (x :: xs) = (dtOk e x && dtOkList e xs) := by
  rw [dtOkList.eq_def]

theorem dtOkEntries_nil (kdt vdt : ArrowDType) : dtOkEntries kdt vdt [] = true := by
  rw [dtOkEntries.eq_def]

theorem dtOkEntries_cons (kdt vdt : ArrowDType) (k v : PyValue)
    (rest : List (PyValue × PyValue)) :
    dtOkEntries kdt vdt ((k, v) :: rest) =
      (dtOk kdt k && dtOk vdt v && dtOkEntries kdt vdt rest) := by
  rw [dtOkEntries.eq_def]

theorem dtOkFields_nil (es : List (PyValue × PyValue)) : dtOkFields [] es = true := by
  rw [dtOkFields.eq_def]

theorem dtOkFields_cons (n : String) (ft : ArrowDType)
    (rest : List (String × ArrowDType)) (es : List (PyValue × PyValue)) :
    dtOkFields ((n, ft) :: rest) es =
      (match dictFieldLookup n es with
      | none => false
      | some fv => dtOk ft fv && dtOkFields rest es) := by
  rw [dtOkFields.eq_def]

theorem isOkE_if_prim {dt : ArrowDType} {v : PyValue} :
    isOkE (if primPayloadOk dt v then
        (.ok (.basicS dt v) : Except String ArrowScalar)
      else .error "pa.scalar: could not convert value to primitive type") =
      primPayloadOk dt v := by
  cases h : primPayloadOk dt v <;> simp [h, isOkE]

theorem paScalar_isOk :
    ∀ (dt : ArrowDType) (v : PyValue), isOkE (paScalar dt v) = dtOk dt v := by
  have key : ∀ (n : Nat),
      (∀ (dt : ArrowDType) (v : PyValue), sizeOf dt + sizeOf v ≤ n →
        isOkE (paScalar dt v) = dtOk dt v) ∧
      (∀ (e : ArrowDType) (xs : List PyValue), sizeOf e + sizeOf xs ≤ n →
        isOkE (paPyList e xs) = dtOkList e xs) ∧
      (∀ (kdt vdt : ArrowDType) (es : List (PyValue × PyValue)),
        sizeOf kdt + sizeOf vdt + sizeOf es ≤ n →
        isOkE (paEntries kdt vdt es) = dtOkEntries kdt vdt es) ∧
      (∀ (fts : List (String × ArrowDType)) (es : List (PyValue × PyValue)),
        sizeOf fts + sizeOf es ≤ n →
        isOkE (paFields fts es) = dtOkFields fts es) := by
    intro n
    induction n using Nat.strong_induction_on with
    | _ n ih =>
      refine ⟨?_, ?_, ?_, ?_⟩
      · intro dt v hsz
        cases dt
        case listT e =>
          rw [paScalar_listT, dtOk_listT]
          cases v
          case listV xs =>
            rw [isOkE_map]
            have hlt : sizeOf e + sizeOf xs < n := by simp at hsz; omega
            exact (ih _ hlt).2.1 e xs (le_refl _)
          all_goals rfl
        case mapT kdt vdt =>
          rw [paScalar_mapT, dtOk_mapT]
          cases v
          case dictV es =>
            rw [isOkE_map]
            have hlt : sizeOf kdt + sizeOf vdt + sizeOf es < n := by
              simp at hsz; omega
            exact (ih _ hlt).2.2.1 kdt vdt es (le_refl _)
          all_goals rfl
        case structT fts =>
          rw [paScalar_structT, dtOk_structT]
          cases v
          case dictV es =>
            dsimp only
            cases hkeys : dictKeysDeclared es (fts.map Prod.fst)
            · rw [if_neg Bool.false_ne_true, Bool.false_and]
              rfl
            · rw [if_pos rfl, Bool.true_and, isOkE_map]
              have hlt : sizeOf fts + sizeOf es < n := by simp at hsz; omega
              exact (ih _ hlt).2.2.2 fts es (le_refl _)
          all_goals rfl
        all_goals (simp only [paScalar_prim, dtOk_prim, isPrimDt, isOkE_if_prim])
      · intro e xs hsz
        cases xs with
        | nil => rw [paPyList_nil, dtOkList_nil]; rfl
        | cons x rest =>
          rw [paPyList_cons, dtOkList_cons]
          have h1 : isOkE (paScalar e x) = dtOk e x := by
            have hlt : sizeOf e + sizeOf x < n := by simp at hsz; omega
            exact (ih _ hlt).1 e x (le_refl _)
          have h2 : isOkE (paPyList e rest) = dtOkList e rest := by
            have hlt : sizeOf e + sizeOf rest < n := by simp at hsz; omega
            exact (ih _ hlt).2.1 e rest (le_refl _)
          cases hx : paScalar e x with
          | error msg =>
            rw [hx] at h1
            simp only [isOkE] at h1
            rw [error_bind, ← h1]
            simp [isOkE]
          | ok s =>
            rw [hx] at h1
            simp only [isOkE] at h1
            rw [ok_bind, ← h1, Bool.true_and]
            cases hr : paPyList e rest with
            | error msg2 =>
              rw [hr] at h2
              simp only [isOkE] at h2
              rw [error_bind, ← h2]
              simp [isOkE]
            | ok ss =>
              rw [hr] at h2
              simp only [isOkE] at h2
              rw [ok_bind, ← h2]
              simp [isOkE]
      · intro kdt vdt es hsz
        cases es with
        | nil => rw [paEntries_nil, dtOkEntries_nil]; rfl
        | cons p rest =>
          obtain ⟨k, v⟩ := p
          rw [paEntries_cons, dtOkEntries_cons]
          have h1 : isOkE (paScalar kdt k) = dtOk kdt k := by
            have hlt : sizeOf kdt + sizeOf k < n := by simp at hsz; omega
            exact (ih _ hlt).1 kdt k (le_refl _)
          have h2 : isOkE (paScalar vdt v) = dtOk vdt v := by
            have hlt : sizeOf vdt + sizeOf v < n := by simp at hsz; omega
            exact (ih _ hlt).1 vdt v (le_refl _)
          have h3 : isOkE (paEntries kdt vdt rest) = dtOkEntries kdt vdt rest := by
            have hlt : sizeOf kdt + sizeOf vdt + sizeOf rest < n := by
              simp at hsz; omega
            exact (ih _ hlt).2.2.1 kdt vdt rest (le_refl _)
          cases hk : paScalar kdt k with
          | error msg =>
            rw [hk] at h1
            simp only [isOkE] at h1
            rw [error_bind, ← h1]
            simp [isOkE]
          | ok ks =>
            rw [hk] at h1
            simp only [isOkE] at h1
            rw [ok_bind, ← h1, Bool.true_and]
            cases hv : paScalar vdt v with
            | error msg2 =>
              rw [hv] at h2
              simp only [isOkE] at h2
              rw [error_bind, ← h2]
              simp [isOkE]
            | ok vs =>
              rw [hv] at h2
              simp only [isOkE] at h2
              rw [ok_bind, ← h2, Bool.true_and]
              cases hr : paEntries kdt vdt rest with
              | error msg3 =>
                rw [hr] at h3
                simp only [isOkE] at h3
                rw [error_bind, ← h3]
                simp [isOkE]
              | ok tl =>
                rw [hr] at h3
                simp only [isOkE] at h3
                rw [ok_bind, ← h3]
                simp [isOkE]
      · intro fts es hsz
        cases fts with
        | nil => rw [paFields_nil, dtOkFields_nil]; rfl
        | cons p rest =>
          obtain ⟨fn, ft⟩ := p
          rw [paFields_cons, dtOkFields_cons]
          cases hlk : dictFieldLookup fn es with
          | none => simp [isOkE]
          | some fv =>
            have h1 : isOkE (paScalar ft fv) = dtOk ft fv := by
              have hfv := dictFieldLookup_sizeOf hlk
              have hlt : sizeOf ft + sizeOf fv < n := by simp at hsz; omega
              exact (ih _ hlt).1 ft fv (le_refl _)
            have h2 : isOkE (paFields rest es) = dtOkFields rest es := by
              have hlt : sizeOf rest + sizeOf es < n := by simp at hsz; omega
              exact (ih _ hlt).2.2.2 rest es (le_refl _)
            simp only []
            cases hf : paScalar ft fv with
            | error msg =>
              rw [hf] at h1
              simp only [isOkE] at h1
              rw [error_bind, ← h1]
              simp [isOkE]
            | ok s =>
              rw [hf] at h1
              simp only [isOkE] at h1
              rw [ok_bind, ← h1, Bool.true_and]
              cases hr : paFields rest es with
              | error msg2 =>
                rw [hr] at h2
                simp only [isOkE] at h2
                rw [error_bind, ← h2]
                simp [isOkE]
              | ok tl =>
                rw [hr] at h2
                simp only [isOkE] at h2
                rw [ok_bind, ← h2]
                simp [isOkE]
  intro dt v
  exact (key (sizeOf dt + sizeOf v)).1 dt v (le_refl _)

mutual

def conformsE : Marshaller → PyValue → Bool
  | .basic dt, py => dtOk dt py
  | .mlist elem, py =>
      if elem.isBasic then dtOk (.listT elem.dtype) py
      else
        match py with
        | .listV xs => conformsEList elem xs
        | _ => false
  | .mmap k v, py => dtOk (.mapT k.dtype v.dtype) py
  | .mstruct _ flds, py =>
      match py with
      | .recordV _ rfs => dtOk (.structT (dtypeFields flds)) (.dictV (recordAsDict rfs))
      | _ => false
termination_by m py => (sizeOf m, sizeOf py)
decreasing_by all_goals simp_wf <;> simp [Prod.lex_iff] <;> omega

def conformsEList : Marshaller → List PyValue → Bool
  | _, [] => true
  | elem, x :: xs => conformsE elem x && conformsEList elem xs
termination_by m xs => (sizeOf m, sizeOf xs)
decreasing_by all_goals simp_wf <;> simp [Prod.lex_iff] <;> omega

end

theorem conformsE_basic (dt : ArrowDType) (py : PyValue) :
    conformsE (.basic dt) py = dtOk dt py := by
  rw [conformsE.eq_def]

theorem conformsE_mmap (k v : Marshaller) (py : PyValue) :
    conformsE (.mmap k v) py = dtOk (.mapT k.dtype v.dtype) py := by
  rw [conformsE.eq_def]

theorem conformsE_mlist_basic {elem : Marshaller} (hb : elem.isBasic = true)
    (py : PyValue) :
    conformsE (.mlist elem) py = dtOk (.listT elem.dtype) py := by
  rw [conformsE.eq_def]
  simp [hb]

theorem conformsE_mlist_composite {elem : Marshaller} (hb : elem.isBasic = false)
    (py : PyValue) :
    conformsE (.mlist elem) py =
      (match py with
      | .listV xs => conformsEList elem xs
      | _ => false) := by
  rw [conformsE.eq_def]
  simp [hb]

theorem conformsE_mstruct (cls : String) (flds : List (String × Marshaller))
    (py : PyValue) :
    conformsE (.mstruct cls flds) py =
      (match py with
      | .recordV _ rfs =>
          dtOk (.structT (dtypeFields flds)) (.dictV (recordAsDict rfs))
      | _ => false) := by
  rw [conformsE.eq_def]

theorem conformsEList_nil (elem : Marshaller) : conformsEList elem [] = true := by
  rw [conformsEList.eq_def]

theorem conformsEList_cons (elem : Marshaller) (x : PyValue) (xs : List PyValue) :
    conformsEList elem (x :: xs) = (conformsE elem x && conformsEList elem xs) := by
  rw [conformsEList.eq_def]

theorem toArrow_mlist_composite_nonlist {elem : Marshaller}
    (hb : elem.isBasic = false) (py : PyValue) (hpy : ∀ xs, py ≠ .listV xs) :
    toArrow (.mlist elem) py = .error "TypeError: value is not iterable" := by
  rw [toArrow.eq_def]
  simp only [hb]
  rw [if_neg Bool.false_ne_true]

theorem toArrow_mstruct_nonrecord (cls : String)
    (flds : List (String × Marshaller)) (py : PyValue)
    (hpy : ∀ r rfs, py ≠ .recordV r rfs) :
    toArrow (.mstruct cls flds) py =
      .error "AttributeError: value has no __dict__" := by
  rw [toArrow.eq_def]
  cases py
  case recordV r rfs => exact absurd rfl (hpy r rfs)
  all_goals rfl

theorem toArrowElems_nil (elem : Marshaller) : toArrowElems elem [] = .ok [] := by
  rw [toArrowElems.eq_def]

theorem toArrowElems_cons (elem : Marshaller) (x : PyValue) (xs : List PyValue) :
    toArrowElems elem (x :: xs) =
      (do
      let s ← toArrow elem x
      let rest ← toArrowElems elem xs
      .ok (s :: rest)) := by
  rw [toArrowElems.eq_def]

theorem toArrow_isOk :
    ∀ (m : Marshaller) (v : PyValue), isOkE (toArrow m v) = conformsE m v := by
  have key : ∀ (n : Nat),
      (∀ (m : Marshaller) (v : PyValue), sizeOf m + sizeOf v ≤ n →
        isOkE (toArrow m v) = conformsE m v) ∧
      (∀ (elem : Marshaller) (xs : List PyValue), sizeOf elem + sizeOf xs ≤ n →
        isOkE (toArrowElems elem xs) = conformsEList elem xs) := by
    intro n
    induction n using Nat.strong_induction_on with
    | _ n ih =>
      constructor
      · intro m v hsz
        cases m
        case basic dt =>
          rw [toArrow_basic, conformsE_basic, paScalar_isOk]
        case mmap k vm =>
          rw [toArrow_mmap, conformsE_mmap, paScalar_isOk]
        case mstruct cls flds =>
          rw [conformsE_mstruct]
          cases v
          case recordV rcls rfs =>
            rw [toArrow_mstruct, paScalar_isOk]
          all_goals
            rw [toArrow_mstruct_nonrecord _ _ _ (by intro r rfs h; cases h)] <;> rfl
        case mlist elem =>
          cases hb : elem.isBasic
          · rw [conformsE_mlist_composite hb]
            cases v
            case listV xs =>
              rw [toArrow_mlist_composite hb]
              dsimp only
              have hlt : sizeOf elem + sizeOf xs < n := by simp at hsz; omega
              have helems : isOkE (toArrowElems elem xs) = conformsEList elem xs :=
                (ih _ hlt).2 elem xs (le_refl _)
              cases he : toArrowElems elem xs with
              | error msg =>
                rw [he] at helems
                simp only [isOkE] at helems
                rw [error_bind, ← helems]
                rfl
              | ok subs =>
                rw [he] at helems
                simp only [isOkE] at helems
                rw [ok_bind, ← helems]
                have hall : scalarsHaveDtype elem.dtype subs = true := by
                  apply scalarsHaveDtype_of
                  intro s hs
                  rw [toArrowElems_eq_mapM] at he
                  obtain ⟨x, hx⟩ := mapM_ok_mem he s hs
                  exact toArrow_sdtype hx
                simp [paScalarOfScalars, hall, isOkE]
            all_goals
              rw [toArrow_mlist_composite_nonlist hb _ (by intro xs h; cases h)] <;> rfl
          · rw [toArrow_mlist_basic hb, conformsE_mlist_basic hb, paScalar_isOk]
      · intro elem xs hsz
        cases xs with
        | nil => rw [toArrowElems_nil, conformsEList_nil]; rfl
        | cons x rest =>
          rw [toArrowElems_cons, conformsEList_cons]
          have h1 : isOkE (toArrow elem x) = conformsE elem x := by
            have hlt : sizeOf elem + sizeOf x < n := by simp at hsz; omega
            exact (ih _ hlt).1 elem x (le_refl _)
          have h2 : isOkE (toArrowElems elem rest) = conformsEList elem rest := by
            have hlt : sizeOf elem + sizeOf rest < n := by simp at hsz; omega
            exact (ih _ hlt).2 elem rest (le_refl _)
          cases hx : toArrow elem x with
          | error msg =>
            rw [hx] at h1
            simp only [isOkE] at h1
            rw [error_bind, ← h1]
            rfl
          | ok s =>
            rw [hx] at h1
            simp only [isOkE] at h1
            rw [ok_bind, ← h1, Bool.true_and]
            cases hr : toArrowElems elem rest with
            | error msg2 =>
              rw [hr] at h2
              simp only [isOkE] at h2
              rw [error_bind, ← h2]
              rfl
            | ok ss =>
              rw [hr] at h2
              simp only [isOkE] at h2
              rw [ok_bind, ← h2]
              rfl
  intro m v
  exact (key (sizeOf m + sizeOf v)).1 m v (le_refl _)

theorem dog_toArrow_eq : toArrow personM dogRecord = .ok adaStruct := by
  unfold personM dogRecord
  rw [toArrow_mstruct]
  simp only [personFields, adaStruct, personFieldDtypes, dtypeFields, Marshaller.dtype,
    stringM, int64, boolean, recordAsDict, List.map, paScalar_structT]
  simp only [dictKeysDeclared, List.all, List.map, Prod.fst, dictFieldLookup,
    List.contains, List.elem, paFields_cons, paFields_nil]
  simp only [String.reduceEq, reduceIte]
  simp only [paScalar_prim, isPrimDt, primPayloadOk]
  norm_num
  simp [ok_bind, error_bind, map_ok, map_error]

/-- C5 (counterexample). Neither direction of the claim holds. Decoding: the
`int8` basic converter's `from_arrow` happily decodes a scalar whose runtime
dtype is `int64` (value 200, not even representable in `int8`), although the
scalar's dtype differs from the converter's dtype and the engine itself would
refuse to encode 200 at `int8`; no `ConversionError` is raised. Encoding: the
`Person` struct converter's `to_arrow` accepts a `Dog` instance (which is not
a value of the declared dataclass, hence does not conform to the shape
descriptor) because `StructArrowMarshaller.to_arrow` only reads `__dict__`
and never checks the value's class. -/
theorem c5_counterexample_no_conversion_checks :
    fromArrow (.basic .int8T) (.basicS .int64T (.intV 200)) = .ok (.intV 200) ∧
    sdtype (.basicS .int64T (.intV 200)) ≠ (Marshaller.basic .int8T).dtype ∧
    toArrow (.basic .int8T) (.intV 200) =
      .error "pa.scalar: could not convert value to primitive type" ∧
    toArrow personM dogRecord = .ok adaStruct ∧
    (∀ rfs, dogRecord ≠ .recordV "Person" rfs) := by
  refine ⟨?_, ?_, ?_, dog_toArrow_eq, ?_⟩
  · rw [fromArrow_basic, asPy_basicS]
  · intro h
    simp only [Marshaller.dtype, sdtype] at h
    exact ArrowDType.noConfusion h
  · rw [toArrow_basic, @paScalar_prim .int8T rfl]
    simp [primPayloadOk]
  · intro rfs h
    unfold dogRecord at h
    injection h with h1 h2
    exact absurd h1 (by decide)

/-- C5 (amended). What the code actually guarantees: `to_scalar` fails exactly
when the input value fails the engine's dtype-directed conversion — a
conformance notion that checks primitive ranges, list/map/struct payload
shapes and struct key sets, but never the value's dataclass identity
(`isOkE (toArrow m v) = conformsE m v`, both sides over all converters and
values); and `from_scalar` of a basic converter performs no dtype check at
all: it returns the scalar's `as_py` payload unconditionally, whatever the
scalar's runtime dtype. -/
theorem c5_amended_engine_checks_encode_only :
    (∀ (m : Marshaller) (v : PyValue), isOkE (toArrow m v) = conformsE m v) ∧
    (∀ (dt : ArrowDType) (s : ArrowScalar), fromArrow (.basic dt) s = .ok (asPy s)) :=
  ⟨toArrow_isOk, fromArrow_basic⟩
